/-
Verification of the filine-wall device client (src/device-client) against its
natural-language specification.

The Python sources are shallowly embedded as executable Lean definitions:

* `parseCallerIdL` / `parseCallerId` embed `CallDetector._parse_caller_id`
  (call_detector.py, lines 154-194), including its fall-through structure.
* `Json`, `jsonDumps`, `jsonLoads` embed the `json.dumps` / `json.loads`
  calls made by `DeviceEncryption` (numbers are modelled as integers, the
  round-trip-lossless case; floating point is outside the embedding).
* `b64Encode` / `b64Decode` embed `base64.urlsafe_b64encode` / `_b64decode`.
* `Fernet` is a parametric model of the external `cryptography.fernet.Fernet`
  object (its encrypt takes an explicit nonce argument standing for the random
  IV/timestamp material; UTF-8 encoding of the plaintext is folded into it).
* `encrypt` / `decrypt` embed `DeviceEncryption.encrypt` / `decrypt`
  (encryption.py, lines 34-52) with the exception structure of the code:
  both the invalid-encoding and the failed-authentication paths raise the
  same Python `ValueError` (`DecryptErr.pyClass`).
* `decryptResponse` / `screenCall` / `sendHeartbeat` / `monitorCalls` embed
  `CallDetector._decrypt_response`, `screen_call`, `send_heartbeat` and
  `monitor_calls` (call_detector.py), with the HTTP outcome made explicit.
* `saltChars` / `deriveKey` embed the salt and key derivation of
  `DeviceEncryption.__init__` (encryption.py, lines 11-32); the external
  PBKDF2 function is a parameter, its iteration/length arguments are the
  constants `kdfIterations` / `kdfLength` from the source.
-/
import Mathlib

set_option linter.unusedVariables false
set_option linter.unnecessarySeqFocus false

/-! ### Python string primitives used by call_detector.py -/

/-- Python `sub in hay` on strings (substring containment). -/
def containsSub (hay sub : List Char) : Bool :=
  if sub.isPrefixOf hay then true
  else
    match hay with
    | [] => false
    | _ :: t => containsSub t sub

/-- Python `str.upper()` restricted to ASCII (all inputs in the claims are ASCII). -/
def pyUpper (l : List Char) : List Char := l.map Char.toUpper

/-- Characters stripped by Python `str.strip()` (ASCII whitespace). -/
def pySpace (c : Char) : Bool :=
  c = ' ' || c = '\t' || c = '\n' || c = '\r' || c = '\x0b' || c = '\x0c'

/-- Python `str.strip()`. -/
def pyStrip (l : List Char) : List Char :=
  ((l.dropWhile pySpace).reverse.dropWhile pySpace).reverse

/-- Python `str.split(sep)` for a one-character separator. -/
def splitOnChar (sep : Char) : List Char → List (List Char)
  | [] => [[]]
  | c :: rest =>
    let r := splitOnChar sep rest
    if c = sep then [] :: r
    else
      match r with
      | h :: t => (c :: h) :: t
      | [] => [[c]]

/-- Python `str.isdigit()` restricted to ASCII digits: nonempty and all digits. -/
def isAllDigits (l : List Char) : Bool := !l.isEmpty && l.all Char.isDigit

/-- First match of the regex `"([^"]+)"` used for the `+CLIP` format: the first
nonempty double-quoted substring, scanning left to right. -/
def firstQuoted : List Char → Option (List Char)
  | [] => none
  | '"' :: rest =>
    let content := rest.takeWhile (fun c => c ≠ '"')
    match rest.dropWhile (fun c => c ≠ '"') with
    | '"' :: _ => if content.isEmpty then firstQuoted rest else some content
    | _ => firstQuoted rest
  | _ :: rest => firstQuoted rest

/-! ### CallDetector._parse_caller_id (call_detector.py lines 154-194)

The Python body is a sequence of `if` blocks; a block whose token test
succeeds but whose inner delimiter test fails falls through to the next
block.  The wrapping try/except and logging do not affect the result (all
operations below are total), so the embedding is a total function. -/

/-- Embedding of `CallDetector._parse_caller_id` on character lists. -/
def parseCallerIdL (l : List Char) : Option (List Char) :=
  let u := pyUpper l
  if containsSub u "NMBR".toList && l.contains '=' then
    some (pyStrip ((splitOnChar '=' l).getD 1 []))
  else if containsSub u "CALLER".toList && containsSub u "NUMBER".toList
      && l.contains ':' then
    some (pyStrip ((splitOnChar ':' l).getD 1 []))
  else if containsSub u "+CLIP".toList && (firstQuoted l).isSome then
    firstQuoted l
  else if isAllDigits (pyStrip l) && 10 ≤ (pyStrip l).length then
    some (pyStrip l)
  else none

/-- Embedding of `CallDetector._parse_caller_id`. -/
def parseCallerId (line : String) : Option String :=
  (parseCallerIdL line.toList).map String.mk

/-- Format 1 in isolation: token `NMBR` (case-insensitive) plus `=`;
result is the second field of splitting on `=`, stripped. -/
def fmtNmbr (l : List Char) : Option (List Char) :=
  if containsSub (pyUpper l) "NMBR".toList && l.contains '=' then
    some (pyStrip ((splitOnChar '=' l).getD 1 []))
  else none

/-- Format 2 in isolation: tokens `CALLER` and `NUMBER` plus `:`. -/
def fmtCallerNumber (l : List Char) : Option (List Char) :=
  if containsSub (pyUpper l) "CALLER".toList
      && containsSub (pyUpper l) "NUMBER".toList && l.contains ':' then
    some (pyStrip ((splitOnChar ':' l).getD 1 []))
  else none

/-- Format 3 in isolation: token `+CLIP` plus a quoted substring. -/
def fmtClip (l : List Char) : Option (List Char) :=
  if containsSub (pyUpper l) "+CLIP".toList then firstQuoted l else none

/-- Format 4 in isolation: the stripped line is all digits, length ≥ 10. -/
def fmtBare (l : List Char) : Option (List Char) :=
  if isAllDigits (pyStrip l) && 10 ≤ (pyStrip l).length then
    some (pyStrip l)
  else none

/-- The parser is exactly the first-match-wins chain of the four formats. -/
theorem parseCallerIdL_eq_chain (l : List Char) :
    parseCallerIdL l =
      ((fmtNmbr l).orElse fun _ => (fmtCallerNumber l).orElse fun _ =>
        (fmtClip l).orElse fun _ => fmtBare l) := by
  unfold parseCallerIdL fmtNmbr fmtCallerNumber fmtClip fmtBare
  by_cases h1 : containsSub (pyUpper l) "NMBR".toList && l.contains '=' <;>
    simp only [h1, if_true, if_false, Bool.false_eq_true, Option.orElse] <;>
  by_cases h2 : containsSub (pyUpper l) "CALLER".toList
      && containsSub (pyUpper l) "NUMBER".toList && l.contains ':' <;>
    simp only [h2, if_true, if_false, Bool.false_eq_true, Option.orElse] <;>
  by_cases h3 : containsSub (pyUpper l) "+CLIP".toList <;>
  by_cases h3q : (firstQuoted l).isSome <;>
    simp only [h3, h3q, Bool.true_and, Bool.false_and, Bool.and_true,
      Bool.and_false, if_true, if_false, Bool.false_eq_true, Option.orElse]
  · cases hq : firstQuoted l with
    | none => simp [hq] at h3q
    | some n => simp [hq]
  · cases hq : firstQuoted l with
    | none => rfl
    | some n => simp [hq] at h3q

/-! ### JSON values and Python json.dumps / json.loads

`DeviceEncryption.encrypt` serialises payloads with `json.dumps(data)` and
`decrypt` parses with `json.loads`.  The model below covers the
round-trip-lossless JSON types named by the specification: strings,
(integer) numbers, booleans, null, nested mappings and sequences.  Python
floats are outside the shallow embedding.  `json.dumps` defaults are
modelled exactly: separators `", "` and `": "`, `ensure_ascii=True`
(non-ASCII characters become `\uXXXX` escapes, astral characters become
surrogate pairs). -/

/-- JSON values exchanged with the screening service.  Objects are ordered
field lists; a Python `dict` corresponds to a list without duplicate keys. -/
inductive Json where
  | null
  | bool (b : Bool)
  | num (n : Int)
  | str (s : String)
  | arr (xs : List Json)
  | obj (fields : List (String × Json))

/-- Lower-case hex digit, as produced by Python's `"\u%04x"` formatting. -/
def hexDigitChar (n : Nat) : Char :=
  if n < 10 then Char.ofNat (48 + n) else Char.ofNat (87 + n)

/-- Four hex digits of a code unit below 0x10000. -/
def hex4 (n : Nat) : List Char :=
  [hexDigitChar (n / 4096 % 16), hexDigitChar (n / 256 % 16),
   hexDigitChar (n / 16 % 16), hexDigitChar (n % 16)]

/-- Hex digit value, upper or lower case (as accepted by `json.loads`). -/
def fromHexDigit (c : Char) : Option Nat :=
  if '0' ≤ c ∧ c ≤ '9' then some (c.toNat - 48)
  else if 'a' ≤ c ∧ c ≤ 'f' then some (c.toNat - 87)
  else if 'A' ≤ c ∧ c ≤ 'F' then some (c.toNat - 55)
  else none

/-- Escape of one character in a JSON string literal, following Python's
`json.encoder` with `ensure_ascii=True`: two-character shortcuts for the
common controls, `\uXXXX` for other controls and all non-ASCII characters,
and a surrogate pair for characters above 0xFFFF. -/
def escChar (c : Char) : List Char :=
  if c = '"' then ['\\', '"']
  else if c = '\\' then ['\\', '\\']
  else if c = '\n' then ['\\', 'n']
  else if c = '\r' then ['\\', 'r']
  else if c = '\t' then ['\\', 't']
  else if c = '\x08' then ['\\', 'b']
  else if c = '\x0c' then ['\\', 'f']
  else if c.toNat < 0x20 then '\\' :: 'u' :: hex4 c.toNat
  else if c.toNat ≤ 0x7e then [c]
  else if c.toNat < 0x10000 then '\\' :: 'u' :: hex4 c.toNat
  else
    ('\\' :: 'u' :: hex4 (0xD800 + (c.toNat - 0x10000) / 0x400)) ++
      ('\\' :: 'u' :: hex4 (0xDC00 + (c.toNat - 0x10000) % 0x400))

/-- JSON string-body escaping (`json.dumps` on the characters of a string). -/
def escapeStr (l : List Char) : List Char :=
  l.foldr (fun c acc => escChar c ++ acc) []

/-- Decimal digit character. -/
def digitChar (n : Nat) : Char := Char.ofNat (48 + n)

/-- Decimal digits, fuel-indexed so the recursion is structural; any
`fuel > n` yields the digits of `n`, most significant first. -/
def natDigitsAux (fuel : Nat) (n : Nat) : List Char :=
  match fuel with
  | 0 => []
  | fuel + 1 =>
    if n < 10 then [digitChar n]
    else natDigitsAux fuel (n / 10) ++ [digitChar (n % 10)]

/-- Decimal digits of a natural number, most significant first (`str(n)`). -/
def natDigits (n : Nat) : List Char := natDigitsAux (n + 1) n

/-- Python `str(int)`: optional minus sign followed by the decimal digits. -/
def dumpInt (n : Int) : List Char :=
  if n < 0 then '-' :: natDigits n.natAbs else natDigits n.natAbs

mutual

/-- `json.dumps` with default separators, producing the character list. -/
def dumpsVal : Json → List Char
  | .null => "null".toList
  | .bool true => "true".toList
  | .bool false => "false".toList
  | .num n => dumpInt n
  | .str s => '"' :: (escapeStr s.toList ++ ['"'])
  | .arr [] => ['[', ']']
  | .arr (x :: xs) => '[' :: (dumpsVal x ++ (dumpsArrItems xs ++ [']']))
  | .obj [] => ['\x7b', '\x7d']
  | .obj (f :: fs) => '\x7b' :: (dumpsField f ++ (dumpsObjItems fs ++ ['\x7d']))

/-- One `"key": value` member of an object. -/
def dumpsField : String × Json → List Char
  | (k, v) => '"' :: (escapeStr k.toList ++ ('"' :: ':' :: ' ' :: dumpsVal v))

/-- Remaining array items, each preceded by the `", "` separator. -/
def dumpsArrItems : List Json → List Char
  | [] => []
  | x :: xs => ',' :: ' ' :: (dumpsVal x ++ dumpsArrItems xs)

/-- Remaining object members, each preceded by the `", "` separator. -/
def dumpsObjItems : List (String × Json) → List Char
  | [] => []
  | f :: fs => ',' :: ' ' :: (dumpsField f ++ dumpsObjItems fs)

end

/-- `json.dumps(data)` as called by `DeviceEncryption.encrypt`. -/
def jsonDumps (v : Json) : String := String.mk (dumpsVal v)

/-- Skip the separating spaces emitted by `json.dumps`. -/
def skipSpaces (l : List Char) : List Char := l.dropWhile (fun c => c = ' ')

mutual

/-- Body of a JSON string literal after the opening quote: accumulate
characters until the closing quote, decoding the escapes of `json.loads`
(shortcut escapes, `\uXXXX`, and surrogate pairs; a lone surrogate escape is
rejected, as is a raw control character under the default `strict=True`).
Fuel-indexed so the mutual recursion is structural; each step consumes at
least one character, so callers pass fuel exceeding the input length. -/
def parseJStrAux : Nat → List Char → List Char → Option (String × List Char)
  | 0, _, _ => none
  | fuel + 1, acc, l =>
    match l with
    | [] => none
    | c :: rest =>
      if c = '"' then some (String.mk acc.reverse, rest)
      else if c = '\\' then parseJStrEsc fuel acc rest
      else if c.toNat < 0x20 then none
      else parseJStrAux fuel (c :: acc) rest

/-- The escape sequence following a backslash: shortcut escapes or `\uXXXX`. -/
def parseJStrEsc : Nat → List Char → List Char → Option (String × List Char)
  | 0, _, _ => none
  | fuel + 1, acc, l =>
    match l with
    | [] => none
    | e :: rest2 =>
      if e = 'u' then
        match rest2 with
        | a :: b :: cc :: d :: rest3 =>
          match fromHexDigit a, fromHexDigit b, fromHexDigit cc, fromHexDigit d with
          | some x, some y, some z, some w =>
            parseJStrU fuel acc (((x * 16 + y) * 16 + z) * 16 + w) rest3
          | _, _, _, _ => none
        | _ => none
      else if e = '"' then parseJStrAux fuel ('"' :: acc) rest2
      else if e = '\\' then parseJStrAux fuel ('\\' :: acc) rest2
      else if e = '/' then parseJStrAux fuel ('/' :: acc) rest2
      else if e = 'b' then parseJStrAux fuel ('\x08' :: acc) rest2
      else if e = 'f' then parseJStrAux fuel ('\x0c' :: acc) rest2
      else if e = 'n' then parseJStrAux fuel ('\n' :: acc) rest2
      else if e = 'r' then parseJStrAux fuel ('\r' :: acc) rest2
      else if e = 't' then parseJStrAux fuel ('\t' :: acc) rest2
      else none

/-- Continue after a `\uXXXX` escape of value `n`: a high surrogate must be
followed by a low surrogate escape and the pair is recombined; a lone
surrogate is rejected; otherwise the code unit is the character itself. -/
def parseJStrU : Nat → List Char → Nat → List Char → Option (String × List Char)
  | 0, _, _, _ => none
  | fuel + 1, acc, n, rest3 =>
    if 0xD800 ≤ n ∧ n < 0xDC00 then
      match rest3 with
      | b1 :: u1 :: a2 :: b2 :: c2 :: d2 :: rest4 =>
        if b1 = '\\' ∧ u1 = 'u' then
          match fromHexDigit a2, fromHexDigit b2, fromHexDigit c2, fromHexDigit d2 with
          | some p, some q, some r, some t =>
            let m := ((p * 16 + q) * 16 + r) * 16 + t
            if 0xDC00 ≤ m ∧ m < 0xE000 then
              parseJStrAux fuel
                (Char.ofNat (0x10000 + (n - 0xD800) * 0x400 + (m - 0xDC00)) :: acc) rest4
            else none
          | _, _, _, _ => none
        else none
      | _ => none
    else if 0xDC00 ≤ n ∧ n < 0xE000 then none
    else parseJStrAux fuel (Char.ofNat n :: acc) rest3

end

/-- Parse a full JSON string literal body, with fuel covering the input. -/
def parseJStr (l : List Char) : Option (String × List Char) :=
  parseJStrAux (l.length + 1) [] l

/-- Digits to a natural number, most significant first. -/
def digitsToNat (l : List Char) : Nat :=
  l.foldl (fun a c => a * 10 + (c.toNat - 48)) 0

/-- Integer literal parse: optional minus sign and a nonempty digit run
(the only number shape `json.dumps` emits for the modelled payloads). -/
def parseIntPart : List Char → Option (Int × List Char)
  | [] => none
  | c :: rest =>
    if c = '-' then
      let ds := rest.takeWhile Char.isDigit
      if ds.isEmpty then none
      else some (-(digitsToNat ds : Int), rest.dropWhile Char.isDigit)
    else
      let ds := (c :: rest).takeWhile Char.isDigit
      if ds.isEmpty then none
      else some ((digitsToNat ds : Int), (c :: rest).dropWhile Char.isDigit)

mutual

/-- Recursive-descent value parser of `json.loads`, fuel-indexed so that the
mutual recursion is structural.  `jsonLoads` supplies fuel exceeding any
possible recursion depth for its input. -/
def parseValue : Nat → List Char → Option (Json × List Char)
  | 0, _ => none
  | fuel + 1, cs0 =>
    match skipSpaces cs0 with
    | [] => none
    | c :: rest =>
      if c = 'n' then
        match rest with
        | 'u' :: 'l' :: 'l' :: r => some (.null, r)
        | _ => none
      else if c = 't' then
        match rest with
        | 'r' :: 'u' :: 'e' :: r => some (.bool true, r)
        | _ => none
      else if c = 'f' then
        match rest with
        | 'a' :: 'l' :: 's' :: 'e' :: r => some (.bool false, r)
        | _ => none
      else if c = '"' then
        match parseJStr rest with
        | some (s, rest2) => some (.str s, rest2)
        | none => none
      else if c = '[' then
        match skipSpaces rest with
        | [] => none
        | c2 :: rest2 =>
          if c2 = ']' then some (.arr [], rest2)
          else
            match parseValue fuel (c2 :: rest2) with
            | some (v, rest3) => parseArrTail fuel [v] rest3
            | none => none
      else if c = '\x7b' then
        match skipSpaces rest with
        | [] => none
        | c2 :: rest2 =>
          if c2 = '\x7d' then some (.obj [], rest2)
          else if c2 = '"' then
            match parseJStr rest2 with
            | some (k, rest3) =>
              match skipSpaces rest3 with
              | ':' :: rest4 =>
                match parseValue fuel (skipSpaces rest4) with
                | some (v, rest5) => parseObjTail fuel [(k, v)] rest5
                | none => none
              | _ => none
            | none => none
          else none
      else
        match parseIntPart (c :: rest) with
        | some (n, r) => some (.num n, r)
        | none => none

/-- Items of an array after the first, then the closing bracket. -/
def parseArrTail : Nat → List Json → List Char → Option (Json × List Char)
  | 0, _, _ => none
  | fuel + 1, acc, cs0 =>
    match skipSpaces cs0 with
    | [] => none
    | c :: rest =>
      if c = ']' then some (.arr acc.reverse, rest)
      else if c = ',' then
        match parseValue fuel (skipSpaces rest) with
        | some (v, rest2) => parseArrTail fuel (v :: acc) rest2
        | none => none
      else none

/-- Members of an object after the first, then the closing brace. -/
def parseObjTail : Nat → List (String × Json) → List Char → Option (Json × List Char)
  | 0, _, _ => none
  | fuel + 1, acc, cs0 =>
    match skipSpaces cs0 with
    | [] => none
    | c :: rest =>
      if c = '\x7d' then some (.obj acc.reverse, rest)
      else if c = ',' then
        match skipSpaces rest with
        | '"' :: rest2 =>
          match parseJStr rest2 with
          | some (k, rest3) =>
            match skipSpaces rest3 with
            | ':' :: rest4 =>
              match parseValue fuel (skipSpaces rest4) with
              | some (v, rest5) => parseObjTail fuel ((k, v) :: acc) rest5
              | none => none
            | _ => none
          | none => none
        | _ => none
      else none

end

/-- `json.loads` as called by `DeviceEncryption.decrypt`: parse one value and
require only trailing whitespace after it. -/
def jsonLoads (s : String) : Option Json :=
  let cs := s.toList
  match parseValue (2 * cs.length + 2) cs with
  | some (v, rest) => if (skipSpaces rest).isEmpty then some v else none
  | none => none


/-! ### Round trip of the string escaping -/

theorem fromHexDigit_hexDigitChar (k : Nat) (h : k < 16) :
    fromHexDigit (hexDigitChar k) = some k := by
  interval_cases k <;> decide

theorem charToNat_valid (c : Char) :
    c.toNat < 0xD800 ∨ (0xDFFF < c.toNat ∧ c.toNat < 0x110000) := c.valid

theorem escapeStr_cons (c : Char) (s : List Char) :
    escapeStr (c :: s) = escChar c ++ escapeStr s := rfl

theorem pjs_quote (fuel : Nat) (acc rest : List Char) :
    parseJStrAux (fuel + 1) acc ('"' :: rest) = some (String.mk acc.reverse, rest) := rfl

theorem pjs_backslash (fuel : Nat) (acc rest : List Char) :
    parseJStrAux (fuel + 1) acc ('\\' :: rest) = parseJStrEsc fuel acc rest := by
  simp +decide only [parseJStrAux, ite_true, ite_false]

theorem pjs_raw (fuel : Nat) (c : Char) (acc rest : List Char) (h1 : ¬ c = '"')
    (h2 : ¬ c = '\\') (h3 : ¬ c.toNat < 0x20) :
    parseJStrAux (fuel + 1) acc (c :: rest) = parseJStrAux fuel (c :: acc) rest := by
  simp only [parseJStrAux]
  rw [if_neg h1, if_neg h2, if_neg h3]

theorem pjs_esc2 (fuel : Nat) (acc rest : List Char) (e c : Char)
    (h : (e = '"' ∧ c = '"') ∨ (e = '\\' ∧ c = '\\') ∨ (e = '/' ∧ c = '/')
      ∨ (e = 'b' ∧ c = '\x08') ∨ (e = 'f' ∧ c = '\x0c') ∨ (e = 'n' ∧ c = '\n')
      ∨ (e = 'r' ∧ c = '\r') ∨ (e = 't' ∧ c = '\t')) :
    parseJStrEsc (fuel + 1) acc (e :: rest) = parseJStrAux fuel (c :: acc) rest := by
  rcases h with ⟨he, hc⟩ | ⟨he, hc⟩ | ⟨he, hc⟩ | ⟨he, hc⟩ | ⟨he, hc⟩ | ⟨he, hc⟩
    | ⟨he, hc⟩ | ⟨he, hc⟩ <;> subst he <;> subst hc <;>
    simp +decide only [parseJStrEsc, ite_true, ite_false]

theorem pjs_u_plain (fuel : Nat) (n : Nat) (hlt : n < 0x10000)
    (hval : n < 0xD800 ∨ 0xE000 ≤ n) (acc rest : List Char) :
    parseJStrEsc (fuel + 2) acc ('u' :: (hex4 n ++ rest)) =
      parseJStrAux fuel (Char.ofNat n :: acc) rest := by
  simp +decide only [parseJStrEsc, hex4, List.cons_append, List.nil_append,
    ite_true, ite_false,
    fromHexDigit_hexDigitChar (n / 4096 % 16) (by omega),
    fromHexDigit_hexDigitChar (n / 256 % 16) (by omega),
    fromHexDigit_hexDigitChar (n / 16 % 16) (by omega),
    fromHexDigit_hexDigitChar (n % 16) (by omega)]
  simp only [parseJStrU]
  rw [show ((n / 4096 % 16 * 16 + n / 256 % 16) * 16 + n / 16 % 16) * 16 + n % 16 = n by omega]
  rw [if_neg (by omega), if_neg (by omega)]

set_option maxRecDepth 4000 in
theorem pjs_u_pair (fuel : Nat) (m : Nat) (hm : m < 0x100000) (acc rest : List Char) :
    parseJStrEsc (fuel + 2) acc ('u' :: (hex4 (0xD800 + m / 0x400) ++
        ('\\' :: 'u' :: (hex4 (0xDC00 + m % 0x400) ++ rest)))) =
      parseJStrAux fuel (Char.ofNat (0x10000 + m) :: acc) rest := by
  simp +decide only [parseJStrEsc, hex4, List.cons_append, List.nil_append,
    ite_true, ite_false,
    fromHexDigit_hexDigitChar ((0xD800 + m / 0x400) / 4096 % 16) (by omega),
    fromHexDigit_hexDigitChar ((0xD800 + m / 0x400) / 256 % 16) (by omega),
    fromHexDigit_hexDigitChar ((0xD800 + m / 0x400) / 16 % 16) (by omega),
    fromHexDigit_hexDigitChar ((0xD800 + m / 0x400) % 16) (by omega)]
  rw [show (((0xD800 + m / 0x400) / 4096 % 16 * 16 + (0xD800 + m / 0x400) / 256 % 16) * 16
      + (0xD800 + m / 0x400) / 16 % 16) * 16 + (0xD800 + m / 0x400) % 16 = 0xD800 + m / 0x400
      by omega]
  simp +decide only [parseJStrU, ite_true, ite_false,
    fromHexDigit_hexDigitChar ((0xDC00 + m % 0x400) / 4096 % 16) (by omega),
    fromHexDigit_hexDigitChar ((0xDC00 + m % 0x400) / 256 % 16) (by omega),
    fromHexDigit_hexDigitChar ((0xDC00 + m % 0x400) / 16 % 16) (by omega),
    fromHexDigit_hexDigitChar ((0xDC00 + m % 0x400) % 16) (by omega)]
  rw [if_pos (by omega)]
  rw [show (((0xDC00 + m % 0x400) / 4096 % 16 * 16 + (0xDC00 + m % 0x400) / 256 % 16) * 16
      + (0xDC00 + m % 0x400) / 16 % 16) * 16 + (0xDC00 + m % 0x400) % 16 = 0xDC00 + m % 0x400
      by omega]
  rw [if_pos (by constructor <;> omega)]
  rw [show 0x10000 + (0xD800 + m / 0x400 - 0xD800) * 0x400 + (0xDC00 + m % 0x400 - 0xDC00)
      = 0x10000 + m by omega]

theorem hex4_length (n : Nat) : (hex4 n).length = 4 := rfl

theorem parseJStrAux_escape (s : List Char) : ∀ (fuel : Nat) (acc rest : List Char),
    (escapeStr s).length + 1 ≤ fuel →
    parseJStrAux fuel acc (escapeStr s ++ '"' :: rest) =
      some (String.mk (acc.reverse ++ s), rest) := by
  induction s with
  | nil =>
    intro fuel acc rest hf
    obtain ⟨f, rfl⟩ : ∃ f, fuel = f + 1 := ⟨fuel - 1, by omega⟩
    show parseJStrAux (f + 1) acc ('"' :: rest) = _
    rw [pjs_quote]
    simp
  | cons c s ih =>
    intro fuel acc rest hf
    rw [escapeStr_cons] at hf ⊢
    rw [List.append_assoc]
    by_cases h1 : c = '"'
    · subst h1
      rw [show escChar '"' = ['\\', '"'] from rfl] at hf ⊢
      obtain ⟨f, rfl⟩ : ∃ f, fuel = f + 2 := ⟨fuel - 2, by simp at hf; omega⟩
      show parseJStrAux (f + 1 + 1) acc ('\\' :: '"' :: (escapeStr s ++ '"' :: rest)) = _
      rw [pjs_backslash, pjs_esc2 f acc _ '"' '"' (Or.inl ⟨rfl, rfl⟩),
        ih f ('"' :: acc) rest (by simp at hf; omega)]
      simp
    · by_cases h2 : c = '\\'
      · subst h2
        rw [show escChar '\\' = ['\\', '\\'] from rfl] at hf ⊢
        obtain ⟨f, rfl⟩ : ∃ f, fuel = f + 2 := ⟨fuel - 2, by simp at hf; omega⟩
        show parseJStrAux (f + 1 + 1) acc ('\\' :: '\\' :: (escapeStr s ++ '"' :: rest)) = _
        rw [pjs_backslash, pjs_esc2 f acc _ '\\' '\\' (Or.inr (Or.inl ⟨rfl, rfl⟩)),
          ih f ('\\' :: acc) rest (by simp at hf; omega)]
        simp
      · by_cases h3 : c = '\n'
        · subst h3
          rw [show escChar '\n' = ['\\', 'n'] from rfl] at hf ⊢
          obtain ⟨f, rfl⟩ : ∃ f, fuel = f + 2 := ⟨fuel - 2, by simp at hf; omega⟩
          show parseJStrAux (f + 1 + 1) acc ('\\' :: 'n' :: (escapeStr s ++ '"' :: rest)) = _
          rw [pjs_backslash,
            pjs_esc2 f acc _ 'n' '\n' (Or.inr (Or.inr (Or.inr (Or.inr (Or.inr (Or.inl ⟨rfl, rfl⟩)))))),
            ih f ('\n' :: acc) rest (by simp at hf; omega)]
          simp
        · by_cases h4 : c = '\r'
          · subst h4
            rw [show escChar '\r' = ['\\', 'r'] from rfl] at hf ⊢
            obtain ⟨f, rfl⟩ : ∃ f, fuel = f + 2 := ⟨fuel - 2, by simp at hf; omega⟩
            show parseJStrAux (f + 1 + 1) acc ('\\' :: 'r' :: (escapeStr s ++ '"' :: rest)) = _
            rw [pjs_backslash,
              pjs_esc2 f acc _ 'r' '\r' (Or.inr (Or.inr (Or.inr (Or.inr (Or.inr (Or.inr (Or.inl ⟨rfl, rfl⟩))))))),
              ih f ('\r' :: acc) rest (by simp at hf; omega)]
            simp
          · by_cases h5 : c = '\t'
            · subst h5
              rw [show escChar '\t' = ['\\', 't'] from rfl] at hf ⊢
              obtain ⟨f, rfl⟩ : ∃ f, fuel = f + 2 := ⟨fuel - 2, by simp at hf; omega⟩
              show parseJStrAux (f + 1 + 1) acc ('\\' :: 't' :: (escapeStr s ++ '"' :: rest)) = _
              rw [pjs_backslash,
                pjs_esc2 f acc _ 't' '\t' (Or.inr (Or.inr (Or.inr (Or.inr (Or.inr (Or.inr (Or.inr ⟨rfl, rfl⟩))))))),
                ih f ('\t' :: acc) rest (by simp at hf; omega)]
              simp
            · by_cases h6 : c = '\x08'
              · subst h6
                rw [show escChar '\x08' = ['\\', 'b'] from rfl] at hf ⊢
                obtain ⟨f, rfl⟩ : ∃ f, fuel = f + 2 := ⟨fuel - 2, by simp at hf; omega⟩
                show parseJStrAux (f + 1 + 1) acc
                  ('\\' :: 'b' :: (escapeStr s ++ '"' :: rest)) = _
                rw [pjs_backslash,
                  pjs_esc2 f acc _ 'b' '\x08' (Or.inr (Or.inr (Or.inr (Or.inl ⟨rfl, rfl⟩)))),
                  ih f ('\x08' :: acc) rest (by simp at hf; omega)]
                simp
              · by_cases h7 : c = '\x0c'
                · subst h7
                  rw [show escChar '\x0c' = ['\\', 'f'] from rfl] at hf ⊢
                  obtain ⟨f, rfl⟩ : ∃ f, fuel = f + 2 := ⟨fuel - 2, by simp at hf; omega⟩
                  show parseJStrAux (f + 1 + 1) acc
                    ('\\' :: 'f' :: (escapeStr s ++ '"' :: rest)) = _
                  rw [pjs_backslash,
                    pjs_esc2 f acc _ 'f' '\x0c' (Or.inr (Or.inr (Or.inr (Or.inr (Or.inl ⟨rfl, rfl⟩))))),
                    ih f ('\x0c' :: acc) rest (by simp at hf; omega)]
                  simp
                · by_cases h8 : c.toNat < 0x20
                  · have hesc : escChar c = '\\' :: 'u' :: hex4 c.toNat := by
                      rw [escChar, if_neg h1, if_neg h2, if_neg h3, if_neg h4, if_neg h5,
                        if_neg h6, if_neg h7, if_pos h8]
                    rw [hesc] at hf ⊢
                    obtain ⟨f, rfl⟩ : ∃ f, fuel = f + 3 :=
                      ⟨fuel - 3, by simp [hex4_length] at hf; omega⟩
                    show parseJStrAux (f + 2 + 1) acc
                      ('\\' :: 'u' :: (hex4 c.toNat ++ (escapeStr s ++ '"' :: rest))) = _
                    rw [pjs_backslash,
                      pjs_u_plain f c.toNat (by omega) (Or.inl (by omega)),
                      Char.ofNat_toNat,
                      ih f (c :: acc) rest (by simp [hex4_length] at hf; omega)]
                    simp
                  · by_cases h9 : c.toNat ≤ 0x7e
                    · have hesc : escChar c = [c] := by
                        rw [escChar, if_neg h1, if_neg h2, if_neg h3, if_neg h4, if_neg h5,
                          if_neg h6, if_neg h7, if_neg h8, if_pos h9]
                      rw [hesc] at hf ⊢
                      obtain ⟨f, rfl⟩ : ∃ f, fuel = f + 1 :=
                        ⟨fuel - 1, by simp at hf; omega⟩
                      show parseJStrAux (f + 1) acc (c :: (escapeStr s ++ '"' :: rest)) = _
                      rw [pjs_raw f c acc _ h1 h2 h8,
                        ih f (c :: acc) rest (by simp at hf; omega)]
                      simp
                    · by_cases h10 : c.toNat < 0x10000
                      · have hesc : escChar c = '\\' :: 'u' :: hex4 c.toNat := by
                          rw [escChar, if_neg h1, if_neg h2, if_neg h3, if_neg h4, if_neg h5,
                            if_neg h6, if_neg h7, if_neg h8, if_neg h9, if_pos h10]
                        rw [hesc] at hf ⊢
                        obtain ⟨f, rfl⟩ : ∃ f, fuel = f + 3 :=
                          ⟨fuel - 3, by simp [hex4_length] at hf; omega⟩
                        show parseJStrAux (f + 2 + 1) acc
                          ('\\' :: 'u' :: (hex4 c.toNat ++ (escapeStr s ++ '"' :: rest))) = _
                        have hval : c.toNat < 0xD800 ∨ 0xE000 ≤ c.toNat := by
                          rcases charToNat_valid c with h | h
                          · exact Or.inl h
                          · exact Or.inr (by omega)
                        rw [pjs_backslash, pjs_u_plain f c.toNat h10 hval, Char.ofNat_toNat,
                          ih f (c :: acc) rest (by simp [hex4_length] at hf; omega)]
                        simp
                      · have hesc : escChar c =
                            ('\\' :: 'u' :: hex4 (0xD800 + (c.toNat - 0x10000) / 0x400)) ++
                              ('\\' :: 'u' :: hex4 (0xDC00 + (c.toNat - 0x10000) % 0x400)) := by
                          rw [escChar, if_neg h1, if_neg h2, if_neg h3, if_neg h4, if_neg h5,
                            if_neg h6, if_neg h7, if_neg h8, if_neg h9, if_neg h10]
                        rw [hesc] at hf ⊢
                        obtain ⟨f, rfl⟩ : ∃ f, fuel = f + 3 :=
                          ⟨fuel - 3, by simp [hex4_length] at hf; omega⟩
                        have hm : c.toNat - 0x10000 < 0x100000 := by
                          rcases charToNat_valid c with h | h
                          · omega
                          · omega
                        show parseJStrAux (f + 2 + 1) acc
                          ((('\\' :: 'u' :: hex4 (0xD800 + (c.toNat - 0x10000) / 0x400)) ++
                            ('\\' :: 'u' :: hex4 (0xDC00 + (c.toNat - 0x10000) % 0x400))) ++
                            (escapeStr s ++ '"' :: rest)) = _
                        rw [show (('\\' :: 'u' :: hex4 (0xD800 + (c.toNat - 0x10000) / 0x400)) ++
                            ('\\' :: 'u' :: hex4 (0xDC00 + (c.toNat - 0x10000) % 0x400))) ++
                            (escapeStr s ++ '"' :: rest) =
                            '\\' :: 'u' :: (hex4 (0xD800 + (c.toNat - 0x10000) / 0x400) ++
                              ('\\' :: 'u' :: (hex4 (0xDC00 + (c.toNat - 0x10000) % 0x400) ++
                                (escapeStr s ++ '"' :: rest)))) by
                          simp [List.cons_append, List.append_assoc]]
                        rw [pjs_backslash, pjs_u_pair f (c.toNat - 0x10000) hm,
                          show 0x10000 + (c.toNat - 0x10000) = c.toNat by omega,
                          Char.ofNat_toNat,
                          ih f (c :: acc) rest (by simp [hex4_length] at hf; omega)]
                        simp

/-! ### Round trip of the integer serialisation -/

theorem digitChar_toNat (n : Nat) (h : n < 10) : (digitChar n).toNat = 48 + n := by
  interval_cases n <;> decide

theorem digitChar_isDigit (n : Nat) (h : n < 10) : (digitChar n).isDigit = true := by
  interval_cases n <;> decide

theorem natDigitsAux_spec : ∀ (fuel n : Nat), n < fuel →
    (∀ c ∈ natDigitsAux fuel n, c.isDigit = true) ∧
    natDigitsAux fuel n ≠ [] ∧
    digitsToNat (natDigitsAux fuel n) = n := by
  intro fuel
  induction fuel with
  | zero => intro n h; omega
  | succ f ih =>
    intro n h
    by_cases h10 : n < 10
    · rw [natDigitsAux, if_pos h10]
      refine ⟨?_, by simp, ?_⟩
      · intro c hc
        simp at hc
        subst hc
        exact digitChar_isDigit n h10
      · simp [digitsToNat, digitChar_toNat n h10]
    · rw [natDigitsAux, if_neg h10]
      obtain ⟨hdig, hne, hval⟩ := ih (n / 10) (by omega)
      refine ⟨?_, by simp, ?_⟩
      · intro c hc
        simp at hc
        rcases hc with hc | hc
        · exact hdig c hc
        · subst hc; exact digitChar_isDigit (n % 10) (by omega)
      · simp [digitsToNat, List.foldl_append] at hval ⊢
        rw [hval, digitChar_toNat (n % 10) (by omega)]
        omega

theorem natDigits_spec (n : Nat) :
    (∀ c ∈ natDigits n, c.isDigit = true) ∧ natDigits n ≠ [] ∧
    digitsToNat (natDigits n) = n :=
  natDigitsAux_spec (n + 1) n (by omega)

/-- The list after the serialised form of a value begins with a delimiter,
never a digit, so greedy digit runs stop exactly at the value boundary. -/
def noDigitHead : List Char → Prop
  | [] => True
  | c :: _ => c.isDigit = false

theorem takeWhile_append_of (p : Char → Bool) (l r : List Char)
    (hl : ∀ c ∈ l, p c = true)
    (hr : ∀ c t, r = c :: t → p c = false) :
    (l ++ r).takeWhile p = l ∧ (l ++ r).dropWhile p = r := by
  induction l with
  | nil =>
    cases r with
    | nil => simp
    | cons c t =>
      simp only [List.nil_append, List.takeWhile_cons, List.dropWhile_cons]
      simp [hr c t rfl]
  | cons a l ih =>
    have ha : p a = true := hl a (by simp)
    have hl2 : ∀ c ∈ l, p c = true := fun c hc => hl c (by simp [hc])
    obtain ⟨ht, hd⟩ := ih hl2
    simp only [List.cons_append, List.takeWhile_cons, List.dropWhile_cons, ha]
    simp [ht, hd]

theorem parseIntPart_dumpInt (n : Int) (rest : List Char) (hrest : noDigitHead rest) :
    parseIntPart (dumpInt n ++ rest) = some (n, rest) := by
  obtain ⟨hdig, hne, hval⟩ := natDigits_spec n.natAbs
  obtain ⟨c, cs, hcons⟩ : ∃ c cs, natDigits n.natAbs = c :: cs := by
    cases hh : natDigits n.natAbs with
    | nil => exact absurd hh hne
    | cons c cs => exact ⟨c, cs, rfl⟩
  have hrmatch : ∀ c t, rest = c :: t → Char.isDigit c = false := by
    intro c t h
    subst h
    exact hrest
  by_cases hneg : n < 0
  · rw [dumpInt, if_pos hneg, List.cons_append]
    simp only [parseIntPart]
    rw [if_true]
    obtain ⟨ht, hd⟩ := takeWhile_append_of Char.isDigit (natDigits n.natAbs) rest hdig hrmatch
    rw [ht, hd]
    rw [if_neg (by simp [hcons])]
    have hv : -(digitsToNat (natDigits n.natAbs) : Int) = n := by
      rw [hval]; omega
    rw [hv]
  · rw [dumpInt, if_neg hneg, hcons, List.cons_append]
    simp only [parseIntPart]
    have hcdig : c.isDigit = true := hdig c (by simp [hcons])
    rw [if_neg (show ¬ c = '-' by intro hh; subst hh; simp at hcdig)]
    rw [show c :: (cs ++ rest) = (c :: cs) ++ rest from rfl, ← hcons]
    obtain ⟨ht, hd⟩ := takeWhile_append_of Char.isDigit (natDigits n.natAbs) rest hdig hrmatch
    rw [ht, hd]
    rw [if_neg (by simp [hcons])]
    have hv : (digitsToNat (natDigits n.natAbs) : Int) = n := by
      rw [hval]; omega
    rw [hv]

/-! ### The parser inverts the serialiser -/

theorem stringMk_toList (s : String) : String.mk s.toList = s := rfl

theorem skipSpaces_cons_of (c : Char) (l : List Char) (h : ¬ c = ' ') :
    skipSpaces (c :: l) = c :: l := by
  simp [skipSpaces, List.dropWhile_cons, h]

theorem skipSpaces_space (l : List Char) : skipSpaces (' ' :: l) = skipSpaces l := by
  simp [skipSpaces, List.dropWhile_cons]

/-- Every serialised value starts with a character that is not a space and
not a closing bracket, so the separators around it parse unambiguously. -/
theorem dumps_head_props (v : Json) : ∃ c t, dumpsVal v = c :: t ∧
    ¬ c = ' ' ∧ ¬ c = ']' := by
  cases v with
  | null => exact ⟨'n', _, rfl, by decide, by decide⟩
  | bool b =>
    cases b with
    | true => exact ⟨'t', _, rfl, by decide, by decide⟩
    | false => exact ⟨'f', _, rfl, by decide, by decide⟩
  | num n =>
    obtain ⟨hdig, hne, _⟩ := natDigits_spec n.natAbs
    obtain ⟨c, cs, hcons⟩ : ∃ c cs, natDigits n.natAbs = c :: cs := by
      cases hh : natDigits n.natAbs with
      | nil => exact absurd hh hne
      | cons c cs => exact ⟨c, cs, rfl⟩
    have hcdig : c.isDigit = true := hdig c (by simp [hcons])
    by_cases hneg : n < 0
    · refine ⟨'-', natDigits n.natAbs, ?_, by decide, by decide⟩
      show dumpInt n = _
      rw [dumpInt, if_pos hneg]
    · refine ⟨c, cs, ?_, ?_, ?_⟩
      · show dumpInt n = _
        rw [dumpInt, if_neg hneg, hcons]
      · intro hh; subst hh; simp at hcdig
      · intro hh; subst hh; simp at hcdig
  | str s => exact ⟨'"', _, rfl, by decide, by decide⟩
  | arr xs =>
    cases xs with
    | nil => exact ⟨'[', _, rfl, by decide, by decide⟩
    | cons x t => exact ⟨'[', _, rfl, by decide, by decide⟩
  | obj fs =>
    cases fs with
    | nil => exact ⟨'\x7b', _, rfl, by decide, by decide⟩
    | cons f t => exact ⟨'\x7b', _, rfl, by decide, by decide⟩

/-- A serialised value's head passes over the literal dispatch of the
parser only when it is a number head. -/
theorem numHead_ne (c : Char) (h : c = '-' ∨ c.isDigit = true) :
    ¬ c = 'n' ∧ ¬ c = 't' ∧ ¬ c = 'f' ∧ ¬ c = '"' ∧ ¬ c = '[' ∧ ¬ c = '\x7b'
      ∧ ¬ c = ' ' := by
  rcases h with h | h
  · subst h; refine ⟨by decide, by decide, by decide, by decide, by decide, by decide, by decide⟩
  · refine ⟨?_, ?_, ?_, ?_, ?_, ?_, ?_⟩ <;> intro hh <;> subst hh <;> simp at h

theorem dumpInt_head (n : Int) : ∃ c t, dumpInt n = c :: t ∧
    (c = '-' ∨ c.isDigit = true) := by
  obtain ⟨hdig, hne, _⟩ := natDigits_spec n.natAbs
  obtain ⟨c, cs, hcons⟩ : ∃ c cs, natDigits n.natAbs = c :: cs := by
    cases hh : natDigits n.natAbs with
    | nil => exact absurd hh hne
    | cons c cs => exact ⟨c, cs, rfl⟩
  by_cases hneg : n < 0
  · exact ⟨'-', natDigits n.natAbs, by rw [dumpInt, if_pos hneg], Or.inl rfl⟩
  · exact ⟨c, cs, by rw [dumpInt, if_neg hneg, hcons],
      Or.inr (hdig c (by simp [hcons]))⟩

theorem noDigitHead_arrItems (xs : List Json) (rest : List Char) :
    noDigitHead (dumpsArrItems xs ++ ']' :: rest) := by
  cases xs with
  | nil => show (']'.isDigit = false); decide
  | cons x t => show (','.isDigit = false); decide

theorem noDigitHead_objItems (fs : List (String × Json)) (rest : List Char) :
    noDigitHead (dumpsObjItems fs ++ '\x7d' :: rest) := by
  cases fs with
  | nil => show ('\x7d'.isDigit = false); decide
  | cons f t => show (','.isDigit = false); decide

theorem pv_quote (f : Nat) (l : List Char) :
    parseValue (f + 1) ('"' :: l) =
      (match parseJStr l with
        | some (s2, rest2) => some (.str s2, rest2)
        | none => none) := rfl

theorem pv_lbracket (f : Nat) (l : List Char) :
    parseValue (f + 1) ('[' :: l) =
      (match skipSpaces l with
        | [] => none
        | c2 :: rest2 =>
          if c2 = ']' then some (.arr [], rest2)
          else
            match parseValue f (c2 :: rest2) with
            | some (v, rest3) => parseArrTail f [v] rest3
            | none => none) := rfl

theorem pv_lbrace (f : Nat) (l : List Char) :
    parseValue (f + 1) ('\x7b' :: l) =
      (match skipSpaces l with
        | [] => none
        | c2 :: rest2 =>
          if c2 = '\x7d' then some (.obj [], rest2)
          else if c2 = '"' then
            match parseJStr rest2 with
            | some (k, rest3) =>
              match skipSpaces rest3 with
              | ':' :: rest4 =>
                match parseValue f (skipSpaces rest4) with
                | some (v, rest5) => parseObjTail f [(k, v)] rest5
                | none => none
              | _ => none
            | none => none
          else none) := rfl

theorem pat_rbracket (f : Nat) (acc : List Json) (rest : List Char) :
    parseArrTail (f + 1) acc (']' :: rest) = some (.arr acc.reverse, rest) := rfl

theorem pat_comma (f : Nat) (acc : List Json) (l : List Char) :
    parseArrTail (f + 1) acc (',' :: l) =
      (match parseValue f (skipSpaces l) with
        | some (v, rest2) => parseArrTail f (v :: acc) rest2
        | none => none) := rfl

theorem pot_rbrace (f : Nat) (acc : List (String × Json)) (rest : List Char) :
    parseObjTail (f + 1) acc ('\x7d' :: rest) = some (.obj acc.reverse, rest) := rfl

theorem pot_comma (f : Nat) (acc : List (String × Json)) (l : List Char) :
    parseObjTail (f + 1) acc (',' :: l) =
      (match skipSpaces l with
        | '"' :: rest2 =>
          match parseJStr rest2 with
          | some (k, rest3) =>
            match skipSpaces rest3 with
            | ':' :: rest4 =>
              match parseValue f (skipSpaces rest4) with
              | some (v, rest5) => parseObjTail f ((k, v) :: acc) rest5
              | none => none
            | _ => none
          | none => none
        | _ => none) := rfl

theorem pv_numHead (f : Nat) (c : Char) (rest2 : List Char)
    (h : c = '-' ∨ c.isDigit = true) :
    parseValue (f + 1) (c :: rest2) =
      (match parseIntPart (c :: rest2) with
        | some (n, r) => some (.num n, r)
        | none => none) := by
  obtain ⟨hn, ht, hf, hq, hbr, hbrc, hsp⟩ := numHead_ne c h
  simp only [parseValue]
  rw [skipSpaces_cons_of c rest2 hsp]
  simp only []
  rw [if_neg hn, if_neg ht, if_neg hf, if_neg hq, if_neg hbr, if_neg hbrc]

/-- The serialised string literal of `s`, continued by `tail`, parses back
to `s` leaving `tail`. -/
theorem parseJStr_dumps (s : String) (tail : List Char) :
    parseJStr (escapeStr s.toList ++ '"' :: tail) = some (s, tail) := by
  show parseJStrAux ((escapeStr s.toList ++ '"' :: tail).length + 1) []
    (escapeStr s.toList ++ '"' :: tail) = _
  rw [parseJStrAux_escape s.toList _ [] tail (by simp)]
  rw [show String.mk (List.reverse ([] : List Char) ++ s.toList) = s from rfl]

theorem parse_dumps (fuel : Nat) :
    (∀ (v : Json) (rest : List Char), 2 * (dumpsVal v).length ≤ fuel → noDigitHead rest →
      parseValue fuel (dumpsVal v ++ rest) = some (v, rest)) ∧
    (∀ (xs : List Json) (acc : List Json) (rest : List Char),
      2 * (dumpsArrItems xs).length + 2 ≤ fuel →
      parseArrTail fuel acc (dumpsArrItems xs ++ ']' :: rest) =
        some (.arr (acc.reverse ++ xs), rest)) ∧
    (∀ (fs : List (String × Json)) (acc : List (String × Json)) (rest : List Char),
      2 * (dumpsObjItems fs).length + 2 ≤ fuel →
      parseObjTail fuel acc (dumpsObjItems fs ++ '\x7d' :: rest) =
        some (.obj (acc.reverse ++ fs), rest)) := by
  induction fuel with
  | zero =>
    refine ⟨?_, ?_, ?_⟩
    · intro v rest hlen _
      obtain ⟨c, t, hcons, -, -⟩ := dumps_head_props v
      rw [hcons] at hlen
      simp at hlen
    · intro xs acc rest hlen; omega
    · intro fs acc rest hlen; omega
  | succ f ih =>
    obtain ⟨ihv, iha, iho⟩ := ih
    refine ⟨?_, ?_, ?_⟩
    · intro v rest hlen hrest
      cases v with
      | null => exact rfl
      | bool b => cases b with | true => exact rfl | false => exact rfl
      | num n =>
        obtain ⟨c, t, hcons, hhead⟩ := dumpInt_head n
        show parseValue (f + 1) (dumpInt n ++ rest) = _
        rw [hcons, List.cons_append, pv_numHead f c _ hhead,
          show c :: (t ++ rest) = (c :: t) ++ rest from rfl, ← hcons,
          parseIntPart_dumpInt n rest hrest]
      | str s =>
        show parseValue (f + 1) ('"' :: (escapeStr s.toList ++ ['"']) ++ rest) = _
        rw [List.cons_append, List.append_assoc,
          show ['"'] ++ rest = '"' :: rest from rfl, pv_quote, parseJStr_dumps s rest]
      | arr xs =>
        cases xs with
        | nil => exact rfl
        | cons x xs =>
          obtain ⟨c2, t2, hcons2, hsp2, hbr2⟩ := dumps_head_props x
          show parseValue (f + 1)
            ('[' :: (dumpsVal x ++ (dumpsArrItems xs ++ [']'])) ++ rest) = _
          rw [List.cons_append, List.append_assoc, List.append_assoc,
            show [']'] ++ rest = ']' :: rest from rfl, pv_lbracket]
          rw [hcons2, List.cons_append, skipSpaces_cons_of c2 _ hsp2]
          simp only []
          rw [if_neg hbr2]
          rw [show c2 :: (t2 ++ (dumpsArrItems xs ++ ']' :: rest)) =
            (c2 :: t2) ++ (dumpsArrItems xs ++ ']' :: rest) from rfl, ← hcons2]
          have hlen2 : (dumpsVal (Json.arr (x :: xs))).length =
              1 + ((dumpsVal x).length + ((dumpsArrItems xs).length + 1)) := by
            show ('[' :: (dumpsVal x ++ (dumpsArrItems xs ++ [']']))).length = _
            simp only [List.length_cons, List.length_append, List.length_nil]
            omega
          rw [hlen2] at hlen
          rw [ihv x (dumpsArrItems xs ++ ']' :: rest) (by omega)
            (noDigitHead_arrItems xs rest)]
          simp only []
          rw [iha xs [x] rest (by omega)]
          simp
      | obj fs =>
        cases fs with
        | nil => exact rfl
        | cons kv fs =>
          obtain ⟨k, v⟩ := kv
          obtain ⟨c3, t3, hcons3, hsp3, hbr3⟩ := dumps_head_props v
          show parseValue (f + 1)
            ('\x7b' :: (dumpsField (k, v) ++ (dumpsObjItems fs ++ ['\x7d'])) ++ rest) = _
          rw [List.cons_append, List.append_assoc, List.append_assoc,
            show ['\x7d'] ++ rest = '\x7d' :: rest from rfl, pv_lbrace]
          rw [show dumpsField (k, v) =
            '"' :: (escapeStr k.toList ++ ('"' :: ':' :: ' ' :: dumpsVal v)) from rfl]
          rw [List.cons_append, skipSpaces_cons_of '"' _ (by decide)]
          simp only []
          simp +decide only [ite_true, ite_false]
          rw [show (escapeStr k.toList ++ ('"' :: ':' :: ' ' :: dumpsVal v)) ++
              (dumpsObjItems fs ++ '\x7d' :: rest) =
            escapeStr k.toList ++ '"' ::
              (':' :: ' ' :: (dumpsVal v ++ (dumpsObjItems fs ++ '\x7d' :: rest))) by
            simp [List.append_assoc]]
          rw [parseJStr_dumps k]
          simp only []
          rw [skipSpaces_cons_of ':' _ (by decide)]
          simp only []
          rw [skipSpaces_space, hcons3, List.cons_append, skipSpaces_cons_of c3 _ hsp3]
          rw [show c3 :: (t3 ++ (dumpsObjItems fs ++ '\x7d' :: rest)) =
            (c3 :: t3) ++ (dumpsObjItems fs ++ '\x7d' :: rest) from rfl, ← hcons3]
          have hlen3 : (dumpsVal (Json.obj ((k, v) :: fs))).length =
              1 + ((1 + ((escapeStr k.toList).length + (3 + (dumpsVal v).length))) +
                ((dumpsObjItems fs).length + 1)) := by
            show ('\x7b' :: (dumpsField (k, v) ++ (dumpsObjItems fs ++ ['\x7d']))).length = _
            show ('\x7b' :: (('"' :: (escapeStr k.toList ++ ('"' :: ':' :: ' ' :: dumpsVal v)))
              ++ (dumpsObjItems fs ++ ['\x7d']))).length = _
            simp only [List.length_cons, List.length_append, List.length_nil]
            omega
          rw [hlen3] at hlen
          rw [ihv v (dumpsObjItems fs ++ '\x7d' :: rest) (by omega)
            (noDigitHead_objItems fs rest)]
          simp only []
          rw [iho fs [(k, v)] rest (by omega)]
          simp
    · intro xs acc rest hlen
      cases xs with
      | nil =>
        rw [show dumpsArrItems [] ++ ']' :: rest = ']' :: rest from rfl, pat_rbracket]
        simp
      | cons x xs =>
        obtain ⟨c2, t2, hcons2, hsp2, hbr2⟩ := dumps_head_props x
        show parseArrTail (f + 1) acc
          ((',' :: ' ' :: (dumpsVal x ++ dumpsArrItems xs)) ++ ']' :: rest) = _
        rw [List.cons_append, List.cons_append, List.append_assoc, pat_comma,
          skipSpaces_space, hcons2, List.cons_append, skipSpaces_cons_of c2 _ hsp2]
        rw [show c2 :: (t2 ++ (dumpsArrItems xs ++ ']' :: rest)) =
          (c2 :: t2) ++ (dumpsArrItems xs ++ ']' :: rest) from rfl, ← hcons2]
        have hlen2 : (dumpsArrItems (x :: xs)).length =
            2 + ((dumpsVal x).length + (dumpsArrItems xs).length) := by
          show ((',' :: ' ' :: (dumpsVal x ++ dumpsArrItems xs))).length = _
          simp only [List.length_cons, List.length_append, List.length_nil]
          omega
        rw [hlen2] at hlen
        rw [ihv x (dumpsArrItems xs ++ ']' :: rest) (by omega)
          (noDigitHead_arrItems xs rest)]
        simp only []
        rw [iha xs (x :: acc) rest (by omega)]
        simp
    · intro fs acc rest hlen
      cases fs with
      | nil =>
        rw [show dumpsObjItems [] ++ '\x7d' :: rest = '\x7d' :: rest from rfl, pot_rbrace]
        simp
      | cons kv fs =>
        obtain ⟨k, v⟩ := kv
        obtain ⟨c3, t3, hcons3, hsp3, hbr3⟩ := dumps_head_props v
        show parseObjTail (f + 1) acc
          ((',' :: ' ' :: (dumpsField (k, v) ++ dumpsObjItems fs)) ++ '\x7d' :: rest) = _
        rw [List.cons_append, List.cons_append, List.append_assoc, pot_comma,
          skipSpaces_space]
        rw [show dumpsField (k, v) =
          '"' :: (escapeStr k.toList ++ ('"' :: ':' :: ' ' :: dumpsVal v)) from rfl]
        rw [List.cons_append, skipSpaces_cons_of '"' _ (by decide)]
        simp only []
        rw [show (escapeStr k.toList ++ ('"' :: ':' :: ' ' :: dumpsVal v)) ++
            (dumpsObjItems fs ++ '\x7d' :: rest) =
          escapeStr k.toList ++ '"' ::
            (':' :: ' ' :: (dumpsVal v ++ (dumpsObjItems fs ++ '\x7d' :: rest))) by
          simp [List.append_assoc]]
        rw [parseJStr_dumps k]
        simp only []
        rw [skipSpaces_cons_of ':' _ (by decide)]
        simp only []
        rw [skipSpaces_space, hcons3, List.cons_append, skipSpaces_cons_of c3 _ hsp3]
        rw [show c3 :: (t3 ++ (dumpsObjItems fs ++ '\x7d' :: rest)) =
          (c3 :: t3) ++ (dumpsObjItems fs ++ '\x7d' :: rest) from rfl, ← hcons3]
        have hlen3 : (dumpsObjItems ((k, v) :: fs)).length =
            2 + ((1 + ((escapeStr k.toList).length + (3 + (dumpsVal v).length))) +
              (dumpsObjItems fs).length) := by
          show ((',' :: ' ' :: (dumpsField (k, v) ++ dumpsObjItems fs))).length = _
          show ((',' :: ' ' :: (('"' :: (escapeStr k.toList ++ ('"' :: ':' :: ' ' ::
            dumpsVal v))) ++ dumpsObjItems fs))).length = _
          simp only [List.length_cons, List.length_append, List.length_nil]
          omega
        rw [hlen3] at hlen
        rw [ihv v (dumpsObjItems fs ++ '\x7d' :: rest) (by omega)
          (noDigitHead_objItems fs rest)]
        simp only []
        rw [iho fs ((k, v) :: acc) rest (by omega)]
        simp

/-- `json.loads` inverts `json.dumps` on every modelled payload. -/
theorem jsonLoads_jsonDumps (v : Json) : jsonLoads (jsonDumps v) = some v := by
  show (match parseValue (2 * (String.mk (dumpsVal v)).toList.length + 2)
      (String.mk (dumpsVal v)).toList with
    | some (v2, rest) => if (skipSpaces rest).isEmpty then some v2 else none
    | none => none) = some v
  rw [show (String.mk (dumpsVal v)).toList = dumpsVal v from rfl]
  have h := (parse_dumps (2 * (dumpsVal v).length + 2)).1 v [] (by omega) trivial
  rw [List.append_nil] at h
  rw [h]
  rfl

/-! ### base64 with the urlsafe alphabet (encryption.py)

`DeviceEncryption.encrypt` wraps the Fernet token with
`base64.urlsafe_b64encode(...).decode()` and `decrypt` undoes it with
`base64.urlsafe_b64decode(...)`.  The decoder below is strict about the
alphabet and padding; Python additionally discards characters outside the
alphabet before decoding, a leniency none of the verified behaviours
depends on (its decoder and this one fail on the same concrete inputs used
here, and agree on all encoder outputs). -/

/-- The urlsafe base64 alphabet. -/
def b64CharOf (n : Nat) : Char :=
  if n < 26 then Char.ofNat (65 + n)
  else if n < 52 then Char.ofNat (97 + (n - 26))
  else if n < 62 then Char.ofNat (48 + (n - 52))
  else if n = 62 then '-'
  else '_'

/-- Index of a character in the urlsafe alphabet. -/
def b64IndexOf (c : Char) : Option Nat :=
  if 'A' ≤ c ∧ c ≤ 'Z' then some (c.toNat - 65)
  else if 'a' ≤ c ∧ c ≤ 'z' then some (c.toNat - 97 + 26)
  else if '0' ≤ c ∧ c ≤ '9' then some (c.toNat - 48 + 52)
  else if c = '-' then some 62
  else if c = '_' then some 63
  else none

/-- `base64.urlsafe_b64encode` over byte lists. -/
def b64Encode : List Nat → List Char
  | [] => []
  | [a] => [b64CharOf (a / 4), b64CharOf (a % 4 * 16), '=', '=']
  | [a, b] =>
    [b64CharOf (a / 4), b64CharOf (a % 4 * 16 + b / 16), b64CharOf (b % 16 * 4), '=']
  | a :: b :: c :: rest =>
    b64CharOf (a / 4) :: b64CharOf (a % 4 * 16 + b / 16)
      :: b64CharOf (b % 16 * 4 + c / 64) :: b64CharOf (c % 64) :: b64Encode rest

/-- `base64.urlsafe_b64decode` over character lists. -/
def b64Decode : List Char → Option (List Nat)
  | [] => some []
  | w :: x :: y :: z :: rest =>
    (match b64IndexOf w, b64IndexOf x with
    | some dw, some dx =>
      if y = '=' then
        if z = '=' ∧ rest = [] then some [dw * 4 + dx / 16] else none
      else
        match b64IndexOf y with
        | some dy =>
          if z = '=' then
            if rest = [] then some [dw * 4 + dx / 16, dx % 16 * 16 + dy / 4] else none
          else
            match b64IndexOf z, b64Decode rest with
            | some dz, some ds =>
              some ((dw * 4 + dx / 16) :: (dx % 16 * 16 + dy / 4) :: (dy % 4 * 64 + dz) :: ds)
            | _, _ => none
        | none => none
    | _, _ => none)
  | _ => none

theorem b64IndexOf_b64CharOf (n : Nat) (h : n < 64) :
    b64IndexOf (b64CharOf n) = some n := by
  interval_cases n <;> decide

theorem b64CharOf_ne_pad (n : Nat) (h : n < 64) : ¬ b64CharOf n = '=' := by
  interval_cases n <;> decide

theorem b64_roundtrip : ∀ (bs : List Nat), (∀ b ∈ bs, b < 256) →
    b64Decode (b64Encode bs) = some bs := by
  intro bs
  induction bs using b64Encode.induct with
  | case1 => intro _; rfl
  | case2 a =>
    intro hb
    have ha : a < 256 := hb a (by simp)
    show b64Decode [b64CharOf (a / 4), b64CharOf (a % 4 * 16), '=', '='] = _
    simp only [b64Decode, b64IndexOf_b64CharOf (a / 4) (by omega),
      b64IndexOf_b64CharOf (a % 4 * 16) (by omega)]
    norm_num
    omega
  | case3 a b =>
    intro hb
    have ha : a < 256 := hb a (by simp)
    have hbb : b < 256 := hb b (by simp)
    show b64Decode [b64CharOf (a / 4), b64CharOf (a % 4 * 16 + b / 16),
      b64CharOf (b % 16 * 4), '='] = _
    simp only [b64Decode, b64IndexOf_b64CharOf (a / 4) (by omega),
      b64IndexOf_b64CharOf (a % 4 * 16 + b / 16) (by omega)]
    rw [if_neg (b64CharOf_ne_pad (b % 16 * 4) (by omega))]
    simp only [b64IndexOf_b64CharOf (b % 16 * 4) (by omega)]
    norm_num
    constructor
    · omega
    · omega
  | case4 a b c rest ih =>
    intro hb
    have ha : a < 256 := hb a (by simp)
    have hbb : b < 256 := hb b (by simp)
    have hc : c < 256 := hb c (by simp)
    have hrest : ∀ x ∈ rest, x < 256 := fun x hx => hb x (by simp [hx])
    show b64Decode (b64CharOf (a / 4) :: b64CharOf (a % 4 * 16 + b / 16)
      :: b64CharOf (b % 16 * 4 + c / 64) :: b64CharOf (c % 64) :: b64Encode rest) = _
    simp only [b64Decode, b64IndexOf_b64CharOf (a / 4) (by omega),
      b64IndexOf_b64CharOf (a % 4 * 16 + b / 16) (by omega)]
    rw [if_neg (b64CharOf_ne_pad (b % 16 * 4 + c / 64) (by omega))]
    simp only [b64IndexOf_b64CharOf (b % 16 * 4 + c / 64) (by omega)]
    rw [if_neg (b64CharOf_ne_pad (c % 64) (by omega))]
    simp only [b64IndexOf_b64CharOf (c % 64) (by omega), ih hrest]
    simp only [Option.some.injEq, List.cons.injEq]
    refine ⟨by omega, by omega, by omega, trivial⟩

/-! ### DeviceEncryption.encrypt / decrypt (encryption.py lines 34-52) -/

/-- Parametric model of the external `cryptography.fernet.Fernet` object
held by `DeviceEncryption`: `enc` takes the random IV/timestamp material as
an explicit nonce argument; UTF-8 coding of the plaintext string is folded
into the pair.  The laws the library guarantees are stated separately
(`FernetRoundTrip`, `FernetBytes`) and assumed only where needed. -/
structure Fernet where
  enc : Nat → String → List Nat
  dec : List Nat → Option String

/-- The library decrypts its own tokens. -/
def FernetRoundTrip (F : Fernet) : Prop := ∀ n s, F.dec (F.enc n s) = some s

/-- Tokens are byte strings. -/
def FernetBytes (F : Fernet) : Prop := ∀ n s, ∀ b ∈ F.enc n s, b < 256

/-- Python exception raised by `DeviceEncryption.decrypt`: both `except`
clauses raise `ValueError`, distinguished only by their message prefix;
the model keeps the two code paths as constructors and exposes the Python
exception class via `pyClass`. -/
inductive DecryptErr where
  /-- the `except json.JSONDecodeError` clause: «Invalid JSON in decrypted data». -/
  | invalidJson
  /-- the generic `except Exception` clause: «Decryption failed» (wraps
  base64/binascii errors, `InvalidToken`, and every other failure). -/
  | failed
deriving DecidableEq

/-- The Python exception class of the raised error. -/
def DecryptErr.pyClass : DecryptErr → String
  | _ => "ValueError"

/-- `DeviceEncryption.encrypt`: `json.dumps`, `fernet.encrypt`,
`base64.urlsafe_b64encode(...).decode()`.  Its `try/except` cannot fire on
the modelled payloads (their serialisation is total), so the model returns
the string directly. -/
def encrypt (F : Fernet) (nonce : Nat) (data : Json) : String :=
  String.mk (b64Encode (F.enc nonce (jsonDumps data)))

/-- `DeviceEncryption.decrypt`: `urlsafe_b64decode`, `fernet.decrypt`,
`json.loads`, with the code's two `except` clauses. -/
def decrypt (F : Fernet) (encryptedData : String) : Except DecryptErr Json :=
  match b64Decode encryptedData.toList with
  | none => .error .failed
  | some token =>
    match F.dec token with
    | none => .error .failed
    | some plain =>
      match jsonLoads plain with
      | none => .error .invalidJson
      | some v => .ok v

/-- Flip one byte (to its complement) of a byte list at index `i`. -/
def tamperAt (l : List Nat) (i : Nat) : List Nat :=
  l.set i (255 - l.getD i 0)

/-! ### CallDetector network paths (call_detector.py) -/

/-- Outcome of a `requests` POST as observed by the caller: a raised
network exception, or a response with an HTTP status and a body that may
or may not be JSON. -/
inductive HttpOutcome where
  | netError
  | response (status : Nat) (body : Option Json)

/-- `requests.Response.raise_for_status` raises exactly for 4xx/5xx. -/
def raiseForStatus (status : Nat) : Bool :=
  decide (400 ≤ status) && decide (status < 600)

/-- Python dict lookup on the modelled object fields (first match; a dict
never holds duplicate keys). -/
def jlookup (fields : List (String × Json)) (k : String) : Option Json :=
  match fields with
  | [] => none
  | (k2, v) :: rest => if k2 = k then some v else jlookup rest k

/-- `CallDetector._decrypt_response`: decrypt, returning `{}` on any
exception. -/
def decryptResponse (F : Fernet) (responseText : String) : Json :=
  match decrypt F responseText with
  | .ok v => v
  | .error _ => Json.obj []

/-- `_decrypt_response` as applied to `response.json()["data"]`, whose
value need not be a string: `decrypt` then fails on `.encode()` with an
`AttributeError`, swallowed by the same `except`, giving `{}`. -/
def decryptResponseJ (F : Fernet) (v : Json) : Json :=
  match v with
  | .str s => decryptResponse F s
  | _ => Json.obj []

/-- `result.get('action') == 'allow'`: false whenever the field is absent
or not the string `"allow"`. -/
def isAllow (v : Option Json) : Bool :=
  match v with
  | some (.str s) => s = "allow"
  | _ => false

/-- `CallDetector.screen_call` (lines 134-152).  The `try` block covers the
POST, `raise_for_status`, `response.json()["data"]`, `_decrypt_response`
(which itself never raises) and `result.get(...)`; any exception reaching
the `except` gives `True`. -/
def screenCall (F : Fernet) (o : HttpOutcome) : Bool :=
  match o with
  | .netError => true
  | .response status body =>
    if raiseForStatus status then true
    else
      match body with
      | none => true
      | some (Json.obj fields) =>
        match jlookup fields "data" with
        | none => true
        | some d =>
          match decryptResponseJ F d with
          | Json.obj rf => isAllow (jlookup rf "action")
          | _ => true
      | some _ => true

/-- `CallDetector.send_heartbeat` (lines 113-132): success is the absence
of an exception; the decrypted response is bound to `result` and otherwise
unused. -/
def sendHeartbeat (F : Fernet) (o : HttpOutcome) : Bool :=
  match o with
  | .netError => false
  | .response status body =>
    if raiseForStatus status then false
    else
      match body with
      | none => false
      | some (Json.obj fields) =>
        match jlookup fields "data" with
        | none => false
        | some d =>
          let result := decryptResponseJ F d
          true
      | some _ => false

/-! ### CallDetector.monitor_calls (call_detector.py lines 196-224) -/

/-- What the one modem read of an iteration yields: nothing pending, a
decoded and stripped line, or a raised `serial` I/O error (a failing `ATH`
write lands in the same `except` path). -/
inductive ReadOutcome where
  | noData
  | line (s : String)
  | ioError

/-- Externally visible actions of one `monitor_calls` iteration. -/
inductive MonitorAct where
  /-- `time.sleep(5)` taken when the modem is unavailable. -/
  | sleepFive
  /-- `screen_call` POST for the parsed number. -/
  | screenReq (n : String)
  /-- `ATH` written to the modem. -/
  | hangup
  /-- `_setup_modem()` reinitialisation attempt. -/
  | reopen
deriving DecidableEq

/-- One iteration of `CallDetector.monitor_calls`: `modemReady` is
`self.modem and self.modem.is_open`; `allowDecision` is the value
`screen_call` returns when a number is screened. -/
def monitorCalls (modemReady : Bool) (r : ReadOutcome) (allowDecision : Bool) :
    List MonitorAct :=
  if !modemReady then [.sleepFive]
  else
    match r with
    | .noData => []
    | .line s =>
      if s = "" then []
      else
        match parseCallerId s with
        | none => []
        | some n =>
          if n = "" then []
          else if allowDecision then [.screenReq n]
          else [.screenReq n, .hangup]
    | .ioError => [.reopen]

/-- Seconds of waiting that precede the first reopen attempt among an
iteration's actions, if one occurs. -/
def delayBeforeReopen : List MonitorAct → Option Nat
  | [] => none
  | .reopen :: _ => some 0
  | .sleepFive :: rest => (delayBeforeReopen rest).map (fun d => 5 + d)
  | _ :: rest => delayBeforeReopen rest

/-! ### Key derivation (DeviceEncryption.__init__, encryption.py lines 11-32) -/

/-- PBKDF2 iteration count passed to `PBKDF2HMAC` in the source. -/
def kdfIterations : Nat := 100000

/-- PBKDF2 output length in bytes (`length=32`). -/
def kdfLengthBytes : Nat := 32

/-- Right-pad with spaces to the given width (`str.ljust`). -/
def padRight (w : Nat) (l : List Char) : List Char :=
  l ++ List.replicate (w - l.length) ' '

/-- The deterministic per-device salt:
`f"filine_salt_{device_id}".ljust(16)[:16]` — the
`urlsafe_b64decode(urlsafe_b64encode(...))` wrapper in the source is the
identity (cf. `b64_roundtrip`).  Only 16 characters survive, of which the
fixed namespace occupies the first 12. -/
def saltChars (deviceId : List Char) : List Char :=
  List.take 16 (padRight 16 ("filine_salt_".toList ++ deviceId))

/-- The salt chosen by `DeviceEncryption.__init__`: device-id based when a
device id is given, the freshly generated `secrets.token_bytes(16)`
otherwise. -/
def saltFor (deviceId : Option (List Char)) (randomSalt : List Char) : List Char :=
  match deviceId with
  | some id => saltChars id
  | none => randomSalt

/-- The derived Fernet key, with the external PBKDF2-HMAC-SHA256 function
as the parameter `kdf secret salt iterations length`. -/
def deriveKey (kdf : String → List Char → Nat → Nat → List Nat)
    (authToken : String) (deviceId : Option (List Char)) (randomSalt : List Char) :
    List Nat :=
  kdf authToken (saltFor deviceId randomSalt) kdfIterations kdfLengthBytes

/-! ### A concrete Fernet instance for witnesses

A toy authenticated scheme satisfying the Fernet interface laws: a version
byte, an additive checksum (detecting the concrete byte flips used below),
and a three-byte character encoding of the plaintext. -/

/-- Three-byte big-endian encoding of one character's code point. -/
def charBytes (c : Char) : List Nat :=
  [c.toNat / 65536, c.toNat / 256 % 256, c.toNat % 256]

/-- Byte encoding of a character list. -/
def charsBytes (l : List Char) : List Nat :=
  l.foldr (fun c acc => charBytes c ++ acc) []

/-- Inverse of `charsBytes`. -/
def bytesChars : List Nat → Option (List Char)
  | [] => some []
  | a :: b :: c :: rest =>
    (bytesChars rest).map (fun t => Char.ofNat (a * 65536 + b * 256 + c) :: t)
  | _ => none

/-- Additive checksum byte. -/
def sumMod (l : List Nat) : Nat := (l.foldl (fun a b => a + b) 0) % 256

/-- The toy Fernet instance. -/
def toyFernet : Fernet where
  enc := fun _ s => 128 :: sumMod (charsBytes s.toList) :: charsBytes s.toList
  dec := fun bs =>
    match bs with
    | 128 :: ck :: body =>
      if ck = sumMod body then (bytesChars body).map String.mk else none
    | _ => none

theorem charToNat_lt (c : Char) : c.toNat < 1114112 := by
  rcases charToNat_valid c with h | h
  · omega
  · omega

theorem bytesChars_charsBytes (l : List Char) :
    bytesChars (charsBytes l) = some l := by
  induction l with
  | nil => rfl
  | cons c t ih =>
    show bytesChars (charBytes c ++ charsBytes t) = _
    show bytesChars (c.toNat / 65536 :: c.toNat / 256 % 256 :: c.toNat % 256
      :: charsBytes t) = _
    simp only [bytesChars, ih, Option.map_some]
    have hlt := charToNat_lt c
    rw [show c.toNat / 65536 * 65536 + c.toNat / 256 % 256 * 256 + c.toNat % 256
      = c.toNat by omega, Char.ofNat_toNat]
    rfl

theorem toyFernet_roundtrip : FernetRoundTrip toyFernet := by
  intro n s
  show (match 128 :: sumMod (charsBytes s.toList) :: charsBytes s.toList with
    | 128 :: ck :: body =>
      if ck = sumMod body then (bytesChars body).map String.mk else none
    | _ => none) = some s
  simp only []
  rw [if_true, bytesChars_charsBytes]
  rfl

theorem charsBytes_lt (l : List Char) : ∀ b ∈ charsBytes l, b < 256 := by
  induction l with
  | nil => intro b hb; simp [charsBytes] at hb
  | cons c t ih =>
    intro b hb
    have hlt := charToNat_lt c
    show b < 256
    rcases List.mem_append.mp (by simpa [charsBytes] using hb) with h | h
    · simp [charBytes] at h
      rcases h with h | h | h <;> omega
    · exact ih b h

theorem toyFernet_bytes : FernetBytes toyFernet := by
  intro n s b hb
  rcases hb with _ | ⟨_, hb⟩
  · omega
  rcases hb with _ | ⟨_, hb⟩
  · show sumMod (charsBytes s.toList) < 256
    exact Nat.mod_lt _ (by omega)
  · exact charsBytes_lt s.toList b hb

/-! ### Analysis of the NMBR split (claim C8) -/

/-- Everything after the first `=` of the line (the reading of the claim);
`line.split("=")[1]` differs from it when more than one `=` occurs. -/
def afterFirstEq : List Char → List Char
  | [] => []
  | c :: rest => if c = '=' then rest else afterFirstEq rest

theorem splitOnChar_ne_nil (sep : Char) (l : List Char) : splitOnChar sep l ≠ [] := by
  cases l with
  | nil => simp [splitOnChar]
  | cons c rest =>
    simp only [splitOnChar]
    by_cases h : c = sep
    · simp [h]
    · simp only [h, if_false, Bool.false_eq_true]
      cases hr : splitOnChar sep rest with
      | nil => exact absurd hr (by
          cases rest with
          | nil => simp [splitOnChar]
          | cons c2 r2 =>
            simp only [splitOnChar]
            by_cases h2 : c2 = sep
            · simp [h2]
            · simp only [h2, if_false, Bool.false_eq_true]
              cases splitOnChar sep r2 <;> simp)
      | cons h2 t2 => simp

theorem splitOnChar_count_zero (sep : Char) : ∀ l : List Char, l.count sep = 0 →
    splitOnChar sep l = [l] := by
  intro l
  induction l with
  | nil => intro _; rfl
  | cons c rest ih =>
    intro h
    rw [List.count_cons] at h
    have hc : ¬ c = sep := by
      intro hh
      subst hh
      simp at h
    have hr : rest.count sep = 0 := by
      by_cases hb : c == sep
      · exact absurd (by simpa using hb) hc
      · simp [hb] at h; omega
    simp only [splitOnChar, hc, if_false, Bool.false_eq_true, ih hr]

theorem splitOnChar_getD_one (l : List Char) (h : l.count '=' = 1) :
    (splitOnChar '=' l).getD 1 [] = afterFirstEq l := by
  induction l with
  | nil => simp at h
  | cons c rest ih =>
    rw [List.count_cons] at h
    by_cases hc : c = '='
    · subst hc
      have hr : rest.count '=' = 0 := by simp at h; omega
      rw [show afterFirstEq ('=' :: rest) = rest from by simp [afterFirstEq]]
      simp only [splitOnChar, if_pos rfl, splitOnChar_count_zero '=' rest hr]
      rfl
    · have hr : rest.count '=' = 1 := by
        by_cases hb : c == '='
        · exact absurd (by simpa using hb) hc
        · simp [hb] at h; omega
      rw [show afterFirstEq (c :: rest) = afterFirstEq rest from by simp [afterFirstEq, hc]]
      simp only [splitOnChar, hc, if_false, Bool.false_eq_true]
      cases hsp : splitOnChar '=' rest with
      | nil => exact absurd hsp (splitOnChar_ne_nil '=' rest)
      | cons h2 t2 =>
        rw [← ih hr, hsp]
        rfl

/-! ### Claims -/

/-- C7: the caller-ID parser tries the four vendor formats in the fixed
precedence order NMBR=, CALLER NUMBER:, +CLIP quoted, bare ≥10-digit line,
first match wins; and the five example lines of the specification parse as
stated. -/
theorem parseCallerId_precedence :
    parseCallerId "NMBR = 5551234567" = some "5551234567" ∧
    parseCallerId "+CLIP: \"5559876543\",129" = some "5559876543" ∧
    parseCallerId "CALLER NUMBER: 5551112222" = some "5551112222" ∧
    parseCallerId "5551234567" = some "5551234567" ∧
    parseCallerId "RING" = none ∧
    (∀ l : List Char, parseCallerIdL l =
      ((fmtNmbr l).orElse fun _ => (fmtCallerNumber l).orElse fun _ =>
        (fmtClip l).orElse fun _ => fmtBare l)) :=
  ⟨by decide, by decide, by decide, by decide, by decide, parseCallerIdL_eq_chain⟩

/-- C8 counterexample: on `"NMBR=1=2"` the code returns `"1"`, the text
between the first and second `=` (the second field of `split("=")`), while
the claim's reading — everything after the first `=`, trimmed — is
`"1=2"`. -/
theorem parseCallerId_nmbr_split_cex :
    parseCallerId "NMBR=1=2" = some "1" ∧
    String.mk (pyStrip (afterFirstEq "NMBR=1=2".toList)) = "1=2" ∧
    ("1" : String) ≠ "1=2" :=
  ⟨by decide, by decide, by decide⟩

/-- C8 amended: for every line containing the token `NMBR`
(case-insensitively) and at least one `=`, the parser returns the trimmed
SECOND FIELD of splitting on `=` — the text between the first and second
`=` (or the end of the line) — which coincides with «everything after the
first `=`» exactly when the line contains a single `=`. -/
theorem parseCallerId_nmbr_amended (l : List Char)
    (h1 : containsSub (pyUpper l) "NMBR".toList = true)
    (h2 : l.contains '=' = true) :
    parseCallerIdL l = some (pyStrip ((splitOnChar '=' l).getD 1 [])) ∧
    (l.count '=' = 1 → parseCallerIdL l = some (pyStrip (afterFirstEq l))) := by
  have hmain : parseCallerIdL l = some (pyStrip ((splitOnChar '=' l).getD 1 [])) := by
    unfold parseCallerIdL
    rw [if_pos (by rw [h1, h2]; rfl)]
  refine ⟨hmain, fun hc => ?_⟩
  rw [hmain, splitOnChar_getD_one l hc]

/-- C8 amended, evaluated: the specification's own NMBR example, which has
a single `=`. -/
theorem parseCallerId_nmbr_amended_witness :
    parseCallerIdL "NMBR = 5551234567".toList =
      some (pyStrip (afterFirstEq "NMBR = 5551234567".toList)) :=
  (parseCallerId_nmbr_amended "NMBR = 5551234567".toList (by decide) (by decide)).2
    (by decide)

/-- C9 counterexample: `'NMBR +CLIP: "5551234567"'` has the `NMBR` token
with no `=`; instead of «no number found», the code falls through and the
`+CLIP` rule extracts a number. -/
theorem parseCallerId_fallthrough_cex :
    parseCallerId "NMBR +CLIP: \"5551234567\"" = some "5551234567" ∧
    containsSub (pyUpper "NMBR +CLIP: \"5551234567\"".toList) "NMBR".toList = true ∧
    "NMBR +CLIP: \"5551234567\"".toList.contains '=' = false :=
  ⟨by decide, by decide, by decide⟩

/-- C9 amended: the parser is total by construction (it is a Lean function
into `Option`, mirroring the code's catch-all `try/except` that returns
`None`); when the `NMBR` token matches without its `=` delimiter the
format is SKIPPED and the later formats are still tried, so the result is
«no number found» only when none of the remaining formats matches. -/
theorem parseCallerId_total_amended (l : List Char)
    (h1 : containsSub (pyUpper l) "NMBR".toList = true)
    (h2 : l.contains '=' = false) :
    parseCallerIdL l =
      ((fmtCallerNumber l).orElse fun _ => (fmtClip l).orElse fun _ => fmtBare l) ∧
    (fmtCallerNumber l = none → fmtClip l = none → fmtBare l = none →
      parseCallerIdL l = none) := by
  have hn : fmtNmbr l = none := by
    unfold fmtNmbr
    rw [if_neg (by rw [h2]; simp)]
  have hchain := parseCallerIdL_eq_chain l
  rw [hn] at hchain
  refine ⟨hchain, fun hcn hcl hbare => ?_⟩
  rw [hchain, hcn, hcl, hbare]
  rfl

/-- C9 amended, evaluated: the bare token line `"NMBR"` parses to «no
number found». -/
theorem parseCallerId_total_amended_witness :
    parseCallerIdL "NMBR".toList = none :=
  (parseCallerId_total_amended "NMBR".toList (by decide) (by decide)).2
    (by decide) (by decide) (by decide)

/-- The decrypted value is a JSON object or not (`result.get` exists only
on a dict). -/
def jsonIsObj : Json → Bool
  | .obj _ => true
  | _ => false

/-- C1 counterexample: a 2xx response whose `"data"` field fails to
decrypt (the string `"A"` is not a valid encoding, so `decrypt` raises
and `_decrypt_response` returns `{}`) makes `screen_call` return
`false` — the call is BLOCKED — where the claim requires the fail-open
`true`. -/
theorem screenCall_decrypt_failure_blocks_cex :
    screenCall toyFernet (HttpOutcome.response 200
      (some (Json.obj [("data", Json.str "A")]))) = false ∧
    raiseForStatus 200 = false ∧
    decrypt toyFernet "A" = Except.error DecryptErr.failed :=
  ⟨rfl, rfl, rfl⟩

/-- C1 amended: `screen_call` fails open (`allow = true`) on a network
error, on a 4xx/5xx status (`raise_for_status` raises only for
400 ≤ status < 600), on a non-JSON or non-object body, on a missing
`"data"` field, and when the decrypted value is not an object
(`result.get` raises); but a response whose decryption fails, or whose
decrypted object lacks the `"action"` field or carries a value other than
`"allow"`, yields `allow = false`, because `_decrypt_response` swallows
the error and returns `{}`, and `{}.get('action') == 'allow'` is false.
In the non-failing case `allow = (action == "allow")`. -/
theorem screenCall_failopen_amended (F : Fernet) :
    (screenCall F .netError = true) ∧
    (∀ st b, raiseForStatus st = true → screenCall F (.response st b) = true) ∧
    (∀ st, raiseForStatus st = false → screenCall F (.response st none) = true) ∧
    (∀ st fields, raiseForStatus st = false → jlookup fields "data" = none →
      screenCall F (.response st (some (.obj fields))) = true) ∧
    (∀ st fields d, raiseForStatus st = false → jlookup fields "data" = some d →
      jsonIsObj (decryptResponseJ F d) = false →
      screenCall F (.response st (some (.obj fields))) = true) ∧
    (∀ st fields d rf, raiseForStatus st = false → jlookup fields "data" = some d →
      decryptResponseJ F d = Json.obj rf →
      screenCall F (.response st (some (.obj fields))) = isAllow (jlookup rf "action")) ∧
    (∀ st fields d, raiseForStatus st = false → jlookup fields "data" = some d →
      decryptResponseJ F d = Json.obj [] →
      screenCall F (.response st (some (.obj fields))) = false) := by
  refine ⟨rfl, ?_, ?_, ?_, ?_, ?_, ?_⟩
  · intro st b h
    simp [screenCall, h]
  · intro st h
    simp [screenCall, h]
  · intro st fields h hd
    simp [screenCall, h, hd]
  · intro st fields d h hd hobj
    simp only [screenCall, h, if_false, Bool.false_eq_true, hd]
    cases hdec : decryptResponseJ F d with
    | obj rf => rw [hdec] at hobj; simp [jsonIsObj] at hobj
    | null => rfl
    | bool b => rfl
    | num n => rfl
    | str s => rfl
    | arr xs => rfl
  · intro st fields d rf h hd hdec
    simp only [screenCall, h, if_false, Bool.false_eq_true, hd, hdec]
  · intro st fields d h hd hdec
    simp only [screenCall, h, if_false, Bool.false_eq_true, hd, hdec]
    rfl

/-- C1 amended, evaluated: fail-open on a network error, fail-closed on an
undecryptable 204 response. -/
theorem screenCall_failopen_amended_witness :
    screenCall toyFernet HttpOutcome.netError = true ∧
    screenCall toyFernet (HttpOutcome.response 204
      (some (Json.obj [("data", Json.str "B")]))) = false :=
  ⟨(screenCall_failopen_amended toyFernet).1,
    (screenCall_failopen_amended toyFernet).2.2.2.2.2.2 204 [("data", Json.str "B")]
      (Json.str "B") rfl rfl rfl⟩

/-- C5 counterexample: a 2xx response whose JSON body lacks the `"data"`
field makes `send_heartbeat` return `false` — success is NOT determined
solely by the HTTP outcome, since `response.json()["data"]` raises inside
the `try`. -/
theorem sendHeartbeat_body_dependent_cex :
    sendHeartbeat toyFernet (HttpOutcome.response 200 (some (Json.obj []))) = false ∧
    raiseForStatus 200 = false :=
  ⟨rfl, rfl⟩

/-- C5 amended: heartbeat success requires a POST that does not raise, a
status below 400 (`raise_for_status`), a JSON object body, and a `"data"`
field; given those it is `true` REGARDLESS of what the data decrypts to
(the decrypted value is bound and discarded, so the result does not depend
on the Fernet instance at all); it is `false` on any network error or
4xx/5xx status, and no exception propagates. -/
theorem sendHeartbeat_amended (F F2 : Fernet) :
    (∀ o, sendHeartbeat F o = sendHeartbeat F2 o) ∧
    (sendHeartbeat F .netError = false) ∧
    (∀ st b, raiseForStatus st = true → sendHeartbeat F (.response st b) = false) ∧
    (∀ st, raiseForStatus st = false → sendHeartbeat F (.response st none) = false) ∧
    (∀ st fields, raiseForStatus st = false → (jlookup fields "data").isSome = true →
      sendHeartbeat F (.response st (some (.obj fields))) = true) ∧
    (∀ st fields, raiseForStatus st = false → jlookup fields "data" = none →
      sendHeartbeat F (.response st (some (.obj fields))) = false) := by
  refine ⟨?_, rfl, ?_, ?_, ?_, ?_⟩
  · intro o
    cases o with
    | netError => rfl
    | response st b =>
      cases b with
      | none => rfl
      | some j =>
        cases j with
        | obj fields =>
          simp only [sendHeartbeat]
        | null => rfl
        | bool x => rfl
        | num x => rfl
        | str x => rfl
        | arr x => rfl
  · intro st b h
    simp [sendHeartbeat, h]
  · intro st h
    simp [sendHeartbeat, h]
  · intro st fields h hd
    cases hd2 : jlookup fields "data" with
    | none => rw [hd2] at hd; simp at hd
    | some d => simp [sendHeartbeat, h, hd2]
  · intro st fields h hd
    simp [sendHeartbeat, h, hd]

/-- C5 amended, evaluated: a 201 response whose `"data"` field is not even
a string still succeeds (the decryption outcome is irrelevant), while a
500 fails. -/
theorem sendHeartbeat_amended_witness :
    sendHeartbeat toyFernet (HttpOutcome.response 201
      (some (Json.obj [("data", Json.num 5)]))) = true ∧
    sendHeartbeat toyFernet (HttpOutcome.response 500 none) = false :=
  ⟨(sendHeartbeat_amended toyFernet toyFernet).2.2.2.2.1 201 [("data", Json.num 5)]
      rfl rfl,
    (sendHeartbeat_amended toyFernet toyFernet).2.2.1 500 none rfl⟩

/-- C10 counterexample: when the decrypted plaintext is the JSON array
`[1]`, `_decrypt_response` returns that array, not a dictionary — the
claim's «always receive a dictionary» fails for non-object plaintexts
(`decrypt` is annotated `-> dict` but `json.loads` may return any JSON
value). -/
theorem decryptResponse_nondict_cex :
    decryptResponse toyFernet
        (String.mk (b64Encode (toyFernet.enc 0 "[1]"))) = Json.arr [Json.num 1] ∧
    jsonIsObj (decryptResponse toyFernet
        (String.mk (b64Encode (toyFernet.enc 0 "[1]")))) = false :=
  ⟨rfl, rfl⟩

/-- C10 amended: `_decrypt_response` is total over all input strings — it
never propagates an exception, returning the decrypted JSON value on
success (a dictionary whenever the plaintext is a JSON object, the
protocol case) and the empty dictionary `{}` on any decoding,
authentication, or parse failure. -/
theorem decryptResponse_total_amended (F : Fernet) (s : String) :
    (∀ e, decrypt F s = .error e → decryptResponse F s = Json.obj []) ∧
    (∀ v, decrypt F s = .ok v → decryptResponse F s = v) := by
  constructor
  · intro e he
    simp [decryptResponse, he]
  · intro v hv
    simp [decryptResponse, hv]

/-- C10 amended, evaluated: the undecodable input `"A"` yields `{}`. -/
theorem decryptResponse_total_amended_witness :
    decryptResponse toyFernet "A" = Json.obj [] :=
  (decryptResponse_total_amended toyFernet "A").1 DecryptErr.failed rfl

/-- Only the first four characters of the device id reach the salt: the
truncation to 16 keeps the 12-character namespace plus 4 id characters,
space-padded. -/
theorem saltChars_eq (id : List Char) :
    saltChars id = "filine_salt_".toList ++ List.take 4 (padRight 4 id) := by
  show List.take 16 (padRight 16 ("filine_salt_".toList ++ id)) = _
  rw [padRight, padRight, List.append_assoc]
  rw [show (("filine_salt_".toList ++ id).length) = 12 + id.length by simp; omega]
  rw [show 16 - (12 + id.length) = 4 - id.length by omega]
  rw [show (16 : Nat) = ("filine_salt_".toList).length + 4 by decide]
  rw [List.take_append]

/-- A concrete stand-in for the external PBKDF2 function, injective enough
to witness that the key collision below is caused by the salt alone. -/
def toyKdf : String → List Char → Nat → Nat → List Nat :=
  fun tok salt it len => (tok.toList ++ salt).map Char.toNat ++ [it, len]

/-- C2 counterexample: two distinct device ids agreeing on their first
four characters produce the same salt, hence the same derived key for any
KDF — injectivity in the device id fails. -/
theorem deriveKey_salt_collision_cex :
    deriveKey toyKdf "secret" (some "device-A1".toList) [] =
      deriveKey toyKdf "secret" (some "device-A2".toList) [] ∧
    saltChars "device-A1".toList = saltChars "device-A2".toList ∧
    ("device-A1" : String) ≠ "device-A2" :=
  ⟨rfl, rfl, by decide⟩

/-- C2 amended: the derivation uses PBKDF2 with exactly 100,000 iterations
(≥ 100,000) and 256-bit output over the auth secret, and the salt is a
deterministic function of the device id, so the same device id always
derives the same key; but the salt keeps only the first FOUR characters of
the device id (space-padded) after the 12-character `"filine_salt_"`
namespace and the truncation to 16, so any two device ids agreeing on
those four characters derive the SAME key — injectivity holds at most for
ids distinguishable in their first four characters. -/
theorem deriveKey_amended :
    100000 ≤ kdfIterations ∧
    kdfLengthBytes * 8 = 256 ∧
    (∀ kdf tok id r1 r2,
      deriveKey kdf tok (some id) r1 = deriveKey kdf tok (some id) r2) ∧
    (∀ kdf tok r id1 id2, List.take 4 (padRight 4 id1) = List.take 4 (padRight 4 id2) →
      deriveKey kdf tok (some id1) r = deriveKey kdf tok (some id2) r) := by
  refine ⟨by decide, by decide, fun kdf tok id r1 r2 => rfl, ?_⟩
  intro kdf tok r id1 id2 h
  show kdf tok (saltChars id1) kdfIterations kdfLengthBytes =
    kdf tok (saltChars id2) kdfIterations kdfLengthBytes
  rw [saltChars_eq, saltChars_eq, h]

/-- C2 amended, evaluated on colliding four-character prefixes. -/
theorem deriveKey_amended_witness :
    100000 ≤ kdfIterations ∧
    deriveKey toyKdf "tok" (some "aaaa-left".toList) [] =
      deriveKey toyKdf "tok" (some "aaaa-right".toList) [] :=
  ⟨deriveKey_amended.1,
    deriveKey_amended.2.2.2 toyKdf "tok" [] "aaaa-left".toList "aaaa-right".toList
      (by decide)⟩

/-- C3: for every payload of round-trip-lossless JSON types (strings,
integer numbers, booleans, null, nested mappings and sequences) and every
Fernet instance satisfying the library laws, `decrypt (encrypt P) = P`:
`encrypt` serialises with `json.dumps`, authenticated-encrypts, and
base64-encodes; `decrypt` is the exact inverse under the same key. -/
theorem decrypt_encrypt_roundtrip (F : Fernet) (hrt : FernetRoundTrip F)
    (hby : FernetBytes F) (nonce : Nat) (P : Json) :
    decrypt F (encrypt F nonce P) = .ok P := by
  show (match b64Decode (b64Encode (F.enc nonce (jsonDumps P))) with
    | none => (Except.error DecryptErr.failed : Except DecryptErr Json)
    | some token =>
      match F.dec token with
      | none => Except.error DecryptErr.failed
      | some plain =>
        match jsonLoads plain with
        | none => Except.error DecryptErr.invalidJson
        | some v => Except.ok v) = Except.ok P
  rw [b64_roundtrip (F.enc nonce (jsonDumps P)) (hby nonce (jsonDumps P))]
  simp only []
  rw [hrt nonce (jsonDumps P)]
  simp only []
  rw [jsonLoads_jsonDumps P]

/-- C3, evaluated: a concrete payload of every modelled type round-trips
through the toy Fernet instance. -/
theorem decrypt_encrypt_roundtrip_witness :
    decrypt toyFernet (encrypt toyFernet 7
        (Json.obj [("action", Json.str "allow"), ("n", Json.num (-42)),
          ("ok", Json.bool true), ("z", Json.null),
          ("xs", Json.arr [Json.num 1, Json.str "é"])]))
      = Except.ok (Json.obj [("action", Json.str "allow"), ("n", Json.num (-42)),
          ("ok", Json.bool true), ("z", Json.null),
          ("xs", Json.arr [Json.num 1, Json.str "é"])]) :=
  decrypt_encrypt_roundtrip toyFernet toyFernet_roundtrip toyFernet_bytes 7 _

/-- C4 counterexample: the code does not expose distinct
`AuthenticationError` / `DecryptionError` / `MalformedPayloadError` kinds:
a tampered authentic token (checksum byte flipped) and an invalidly
encoded input (`"A"`) both raise the SAME error — the generic `except`
clause's `ValueError("Decryption failed: ...")` — and even the
JSON-parse-failure clause raises the same Python class `ValueError`. -/
theorem decrypt_error_kinds_cex :
    decrypt toyFernet
        (String.mk (b64Encode (tamperAt (toyFernet.enc 0 "x") 2)))
      = Except.error DecryptErr.failed ∧
    decrypt toyFernet "A" = Except.error DecryptErr.failed ∧
    DecryptErr.pyClass DecryptErr.failed = DecryptErr.pyClass DecryptErr.invalidJson :=
  ⟨rfl, rfl, rfl⟩

/-- C4 amended: flipping any byte of the ciphertext of an encrypted
envelope makes `decrypt` fail — it never silently returns wrong data —
because the authentication layer rejects the tampered token
(the hypothesis `htamper`, the library's guarantee) and the code maps that
rejection to an error; but the failure is a plain
`ValueError("Decryption failed: ...")`, the same exception class as every
other failure, not a distinct `AuthenticationError` kind. -/
theorem decrypt_tamper_amended (F : Fernet) (n : Nat) (p : String) (i : Nat)
    (hi : i < (F.enc n p).length)
    (hby : ∀ b ∈ F.enc n p, b < 256)
    (htamper : F.dec (tamperAt (F.enc n p) i) = none) :
    decrypt F (String.mk (b64Encode (tamperAt (F.enc n p) i)))
      = Except.error DecryptErr.failed ∧
    DecryptErr.pyClass DecryptErr.failed = "ValueError" := by
  have hby2 : ∀ b ∈ tamperAt (F.enc n p) i, b < 256 := by
    intro b hb
    rcases List.mem_or_eq_of_mem_set hb with h | h
    · exact hby b h
    · subst h; omega
  refine ⟨?_, rfl⟩
  show (match b64Decode (b64Encode (tamperAt (F.enc n p) i)) with
    | none => (Except.error DecryptErr.failed : Except DecryptErr Json)
    | some token =>
      match F.dec token with
      | none => Except.error DecryptErr.failed
      | some plain =>
        match jsonLoads plain with
        | none => Except.error DecryptErr.invalidJson
        | some v => Except.ok v) = Except.error DecryptErr.failed
  rw [b64_roundtrip (tamperAt (F.enc n p) i) hby2]
  simp only []
  rw [htamper]

/-- C4 amended, evaluated: flipping the checksum byte of a concrete toy
token. -/
theorem decrypt_tamper_amended_witness :
    decrypt toyFernet (String.mk (b64Encode (tamperAt (toyFernet.enc 0 "x") 1)))
      = Except.error DecryptErr.failed :=
  (decrypt_tamper_amended toyFernet 0 "x" 1 (by decide) (by decide) rfl).1

/-- C6 counterexample: in the very iteration that observes the modem I/O
error, `monitor_calls` immediately calls `_setup_modem()` — a reopen
attempt with zero seconds of cooldown, where the claim requires at least
five. -/
theorem monitorCalls_immediate_reopen_cex :
    monitorCalls true ReadOutcome.ioError true = [MonitorAct.reopen] ∧
    delayBeforeReopen (monitorCalls true ReadOutcome.ioError true) = some 0 ∧
    (0 : Nat) < 5 :=
  ⟨rfl, rfl, by decide⟩

/-- C6 amended: on an I/O error during monitoring the reopen
(`_setup_modem`) happens IMMEDIATELY in the same iteration, with no
cooldown; the five-second `time.sleep(5)` occurs only on iterations where
the modem is unavailable (handle `None` or closed), which do not
themselves attempt a reopen — so consecutive failed reinitialisations are
spaced by the sleep, but the first reopen after an error is instant. -/
theorem monitorCalls_reopen_amended :
    (∀ b, monitorCalls true ReadOutcome.ioError b = [MonitorAct.reopen]) ∧
    (∀ r b, monitorCalls false r b = [MonitorAct.sleepFive]) ∧
    (∀ b, MonitorAct.reopen ∉ monitorCalls false ReadOutcome.ioError b) ∧
    (∀ s b, MonitorAct.reopen ∉ monitorCalls true (ReadOutcome.line s) b) ∧
    (∀ b, monitorCalls true ReadOutcome.noData b = []) := by
  refine ⟨fun b => rfl, fun r b => rfl, fun b => by simp [monitorCalls], ?_,
    fun b => rfl⟩
  intro s b
  show MonitorAct.reopen ∉ monitorCalls true (ReadOutcome.line s) b
  by_cases hs : s = ""
  · simp [monitorCalls, hs]
  · cases hp : parseCallerId s with
    | none => simp [monitorCalls, hs, hp]
    | some n =>
      by_cases hn : n = ""
      · simp [monitorCalls, hs, hp, hn]
      · cases b with
        | true => simp [monitorCalls, hs, hp, hn]
        | false => simp [monitorCalls, hs, hp, hn]
